import Mathlib

/-!
Shallow embedding of src/index.js of the Final-tech-2 WhatsApp pairing
service: the pairing-code lifecycle manager (code generator, pairing
registry, per-record expiry timers, periodic cleanup sweep) and the
connection-status mirror, together with the /verify-code and /status
HTTP handlers.

Modelling conventions:
* a JS Map is an insertion-ordered association list (List (String × CodeData));
* Date values are milliseconds since the epoch (Nat); each handler body
  runs atomically on the event loop and reads the clock once (now : Nat);
* Math.random character draws and the crypto-random session id are
  explicit inputs (Fin 32 draws, a sessionId string);
* every setTimeout scheduled by generateNewPairingCode is an ExpiryTimer
  record; the step relation fires a timer at any time at or after its
  due time, matching the event loop (timers never fire early but may be
  delayed);
* filesystem effects of the close handler are returned as an action
  descriptor rather than performed.
-/

set_option maxRecDepth 4000

namespace IanTech

/-- CONFIG.CODE_EXPIRY_MINUTES of src/index.js. -/
def CODE_EXPIRY_MINUTES : Nat := 10

/-- CONFIG.MAX_SESSIONS of src/index.js. -/
def MAX_SESSIONS : Nat := 100

/-- CONFIG.MAX_QR_ATTEMPTS of src/index.js. -/
def MAX_QR_ATTEMPTS : Nat := 5

/-- CONFIG.CLEANUP_INTERVAL of src/index.js (milliseconds). -/
def CLEANUP_INTERVAL : Nat := 60000

/-- CONFIG.COMPANY_NAME default of src/index.js. -/
def COMPANY_NAME : String := "IAN TECH"

/-- DisconnectReason.loggedOut of the Baileys library (status code 401). -/
def DisconnectReason_loggedOut : Nat := 401

/-- DisconnectReason.restartRequired of the Baileys library (status code 515). -/
def DisconnectReason_restartRequired : Nat := 515

/-- DisconnectReason.timedOut of the Baileys library (status code 408). -/
def DisconnectReason_timedOut : Nat := 408

/-- DisconnectReason.connectionLost of the Baileys library (status code
408, the same value the library gives DisconnectReason.timedOut; 428 is
connectionClosed, which the source's transient test does not name). -/
def DisconnectReason_connectionLost : Nat := 408

/-! ## Code generator (generateAlphanumericCode, formatDisplayCode) -/

/-- The chars string of generateAlphanumericCode:
ABCDEFGHJKLMNPQRSTUVWXYZ23456789 (uppercase letters without I and O,
digits 2 to 9; 32 symbols). -/
def codeAlphabet : List Char :=
  ['A','B','C','D','E','F','G','H','J','K','L','M','N',
   'P','Q','R','S','T','U','V','W','X','Y','Z',
   '2','3','4','5','6','7','8','9']

/-- chars.charAt applied to one Math.random draw (an index below 32). -/
def codeCharAt (i : Fin 32) : Char := codeAlphabet.getD i.val 'A'

/-- The eight Math.random draws consumed by one attempt of the
generation loop of generateAlphanumericCode. -/
structure Draw8 where
  c0 : Fin 32
  c1 : Fin 32
  c2 : Fin 32
  c3 : Fin 32
  c4 : Fin 32
  c5 : Fin 32
  c6 : Fin 32
  c7 : Fin 32
deriving DecidableEq

/-- One attempt of the for-loop of generateAlphanumericCode: the eight
charAt results concatenated in order. -/
def attemptCode (d : Draw8) : String :=
  String.mk [codeCharAt d.c0, codeCharAt d.c1, codeCharAt d.c2, codeCharAt d.c3,
             codeCharAt d.c4, codeCharAt d.c5, codeCharAt d.c6, codeCharAt d.c7]

/-- A match of the regex [A-Z] used for letterCount. -/
def isUpperAZ (c : Char) : Bool := decide ('A' ≤ c) && decide (c ≤ 'Z')

/-- A match of the regex [0-9] used for numberCount. -/
def isDigit09 (c : Char) : Bool := decide ('0' ≤ c) && decide (c ≤ '9')

/-- letterCount of generateAlphanumericCode: matches of [A-Z]. -/
def letterCount (s : String) : Nat := s.data.countP isUpperAZ

/-- numberCount of generateAlphanumericCode: matches of [0-9]. -/
def numberCount (s : String) : Nat := s.data.countP isDigit09

/-- generateAlphanumericCode: draws 8 alphabet characters and recurses
whenever the draw has fewer than 2 letters or fewer than 2 digits. The
recursion consumes one Draw8 of entropy per attempt and returns none
when the supplied entropy list runs out; the JS original recurses on an
unbounded entropy source. -/
def generateAlphanumericCode : List Draw8 → Option String
  | [] => none
  | d :: rest =>
    let code := attemptCode d
    if letterCount code < 2 || numberCount code < 2 then
      generateAlphanumericCode rest
    else
      some code

/-- formatDisplayCode: for an 8-character code,
code.substring(0,4) + "-" + code.substring(4); otherwise the code
unchanged. -/
def formatDisplayCode (code : String) : String :=
  if code.length = 8 then
    String.mk (code.data.take 4 ++ '-' :: code.data.drop 4)
  else code

/-- The cleanCode normalization of the /verify-code handler:
code.replace(slash-dash-g, empty).toUpperCase(). -/
def normalizeCode (s : String) : String :=
  String.mk ((s.data.filter (fun c => c != '-')).map Char.toUpper)

/-! ## Pairing registry (the pairingCodes Map) -/

/-- The codeData object built by generateNewPairingCode; Date fields are
milliseconds since the epoch. botStatus is the mirror status captured at
creation time. -/
structure CodeData where
  code : String
  displayCode : String
  phoneNumber : Option String
  country : Option String
  sessionId : String
  status : String
  createdAt : Nat
  expiresAt : Nat
  linkedAt : Option Nat
  qrData : Option String
  qrImage : Option String
  attempts : Nat
  generatedBy : String
  botStatus : String
  isValid : Bool
deriving DecidableEq

/-- The pairingCodes Map, as an insertion-ordered association list. -/
abbrev Registry := List (String × CodeData)

/-- Map.prototype.get. -/
def mapGet : Registry → String → Option CodeData
  | [], _ => none
  | e :: rest, k => if e.1 = k then some e.2 else mapGet rest k

/-- Map.prototype.set: replaces the value at an existing key in place,
appends a new entry otherwise. -/
def mapSet : Registry → String → CodeData → Registry
  | [], k, v => [(k, v)]
  | e :: rest, k, v => if e.1 = k then (k, v) :: rest else e :: mapSet rest k v

/-- Map.prototype.delete (a Map holds at most one entry per key; deleting
an absent key is a no-op). -/
def mapDelete : Registry → String → Registry
  | [], _ => []
  | e :: rest, k => if e.1 = k then mapDelete rest k else e :: mapDelete rest k

/-- Map.prototype.has. -/
def mapHas (m : Registry) (k : String) : Bool := (mapGet m k).isSome

/-- The keys of the registry, in insertion order. -/
def keysOf (m : Registry) : List String := m.map Prod.fst

/-- The Map representation invariant: at most one entry per key. -/
def MapInv (m : Registry) : Prop := (keysOf m).Nodup

/-! ## Cleanup sweep (cleanupExpiredCodes) -/

/-- The expiry pass of cleanupExpiredCodes: deletes every entry whose
expiresAt has passed and whose status is pending (the loop deletes the
entry being visited, which over a Map equals a filter). -/
def sweepExpiredEntries (m : Registry) (now : Nat) : Registry :=
  m.filter (fun e => !(decide (e.2.expiresAt < now) && (e.2.status == "pending")))

/-- The comparator of the capacity-eviction sort of cleanupExpiredCodes:
ascending createdAt. -/
def createdAtLe (a b : String × CodeData) : Bool :=
  decide (a.2.createdAt ≤ b.2.createdAt)

/-- cleanupExpiredCodes: runs the expiry pass; then, if the entry count
still exceeds MAX_SESSIONS, sorts the entries by createdAt and deletes
the keys of the oldest (count - MAX_SESSIONS) entries. -/
def cleanupExpiredCodes (m : Registry) (now : Nat) : Registry :=
  let afterExpiry := sweepExpiredEntries m now
  if MAX_SESSIONS < afterExpiry.length then
    let sorted := afterExpiry.mergeSort createdAtLe
    let toRemove := sorted.take (afterExpiry.length - MAX_SESSIONS)
    toRemove.foldl (fun acc e => mapDelete acc e.1) afterExpiry
  else afterExpiry

/-! ## Server state and the connection-status mirror -/

/-- A setTimeout scheduled by generateNewPairingCode: due is the
scheduling time plus CODE_EXPIRY_MINUTES minutes; the callback deletes
both keys of the record if the raw key is still present and pending. -/
structure ExpiryTimer where
  due : Nat
  code : String
  displayCode : String
deriving DecidableEq

/-- The module-level mutable state of src/index.js that the claims
concern: the pairingCodes Map, the connection-status mirror variables,
and the queue of pending per-record expiry timeouts. -/
structure ServerState where
  pairingCodes : Registry
  botStatus : String
  lastGeneratedCode : Option String
  lastGeneratedDisplayCode : Option String
  autoActivationAttempts : Nat
  isConnecting : Bool
  currentQR : Option String
  qrImageDataUrl : Option String
  connectionStartTime : Option Nat
  lastConnectionUpdate : Option Nat
  timers : List ExpiryTimer
deriving DecidableEq

/-- The initial values of the module-level globals. -/
def initialState : ServerState :=
  { pairingCodes := []
    botStatus := "disconnected"
    lastGeneratedCode := none
    lastGeneratedDisplayCode := none
    autoActivationAttempts := 0
    isConnecting := false
    currentQR := none
    qrImageDataUrl := none
    connectionStartTime := none
    lastConnectionUpdate := none
    timers := [] }

/-- The object returned by generateNewPairingCode. -/
structure PairingCodeReturn where
  code : String
  displayCode : String
  sessionId : String
  expiresAt : Nat
  country : Option String
  phoneNumber : Option String
  status : String
deriving DecidableEq

/-- generateNewPairingCode: the generated code and session id are passed
in explicitly (they come from Math.random and crypto randomness); now is
the Date.now reading of the call. Stores the record under both its raw
code and its display code, records the last generated code, schedules
the per-record expiry timeout, and returns the summary object. -/
def generateNewPairingCode (st : ServerState) (now : Nat) (code : String)
    (phoneNumber country : Option String) (sessionId : String) :
    ServerState × PairingCodeReturn :=
  let displayCode := formatDisplayCode code
  let expiresAt := now + CODE_EXPIRY_MINUTES * 60 * 1000
  let codeData : CodeData :=
    { code := code
      displayCode := displayCode
      phoneNumber := phoneNumber
      country := country
      sessionId := sessionId
      status := "pending"
      createdAt := now
      expiresAt := expiresAt
      linkedAt := none
      qrData := st.currentQR
      qrImage := st.qrImageDataUrl
      attempts := 0
      generatedBy := COMPANY_NAME
      botStatus := st.botStatus
      isValid := true }
  let st' := { st with
    pairingCodes := mapSet (mapSet st.pairingCodes code codeData) displayCode codeData
    lastGeneratedCode := some code
    lastGeneratedDisplayCode := some displayCode
    timers := st.timers ++ [⟨expiresAt, code, displayCode⟩] }
  (st', { code := code, displayCode := displayCode, sessionId := sessionId,
          expiresAt := expiresAt, country := country, phoneNumber := phoneNumber,
          status := "pending" })

/-- The callback of the setTimeout scheduled by generateNewPairingCode:
if the raw code key is still present and its record still pending,
delete both the raw and the display key. The fired timer leaves the
queue. -/
def fireExpiryTimer (st : ServerState) (tm : ExpiryTimer) : ServerState :=
  { st with
    timers := st.timers.erase tm
    pairingCodes :=
      match mapGet st.pairingCodes tm.code with
      | some d =>
        if d.status = "pending" then
          mapDelete (mapDelete st.pairingCodes tm.code) tm.displayCode
        else st.pairingCodes
      | none => st.pairingCodes }

/-- The entry of initWhatsApp: a no-op while a connection attempt is in
flight, otherwise marks the mirror connecting and records the start
time. -/
def startConnect (st : ServerState) (now : Nat) : ServerState :=
  if st.isConnecting then st
  else { st with
    isConnecting := true
    connectionStartTime := some now
    botStatus := "connecting"
    lastConnectionUpdate := some now }

/-- The catch branch of initWhatsApp (session construction failed):
disconnected, in-flight flag cleared, retry scheduled after 15s. -/
def initConnectFailure (st : ServerState) : ServerState :=
  { st with botStatus := "disconnected", isConnecting := false }

/-- The qr branch of the connection.update handler: stores the raw QR,
marks the mirror qr_ready, increments the attempt counter, and, when the
async render succeeds, stores the rendered image (on a render error the
previous image is kept). -/
def handleQrEvent (st : ServerState) (now : Nat) (qr : String)
    (renderedImage : Option String) : ServerState :=
  { st with
    currentQR := some qr
    botStatus := "qr_ready"
    autoActivationAttempts := st.autoActivationAttempts + 1
    lastConnectionUpdate := some now
    qrImageDataUrl :=
      match renderedImage with
      | some img => some img
      | none => st.qrImageDataUrl }

/-- The connection === open branch of the connection.update handler:
online, in-flight flag cleared, attempt counter reset, and every pending
record of the registry transitioned to linked with linkedAt set (the
loop mutates the shared record object, so both keys of a record observe
the same update). -/
def handleConnectionOpen (st : ServerState) (now : Nat) : ServerState :=
  { st with
    botStatus := "online"
    isConnecting := false
    autoActivationAttempts := 0
    lastConnectionUpdate := some now
    pairingCodes := st.pairingCodes.map (fun e =>
      if e.2.status = "pending" then
        (e.1, { e.2 with status := "linked", linkedAt := some now })
      else e) }

/-- The scheduled reconnect callback: every close path re-enters
initWhatsApp. -/
inductive ScheduledCall where
  | initWhatsApp
deriving DecidableEq

/-- The side effects of the connection === close branch, returned as a
descriptor: whether every .json file of the auth directory is deleted,
and the setTimeout delay and callback of the scheduled reconnect. -/
structure CloseAction where
  purgeAuthJsonFiles : Bool
  reconnectDelayMs : Nat
  reconnectCall : ScheduledCall
deriving DecidableEq

/-- The connection === close branch of the connection.update handler:
disconnected and in-flight flag cleared in every case; the disconnect
status code picks the classification: loggedOut purges the session
credentials and reconnects after 10s; restartRequired, timedOut and
connectionLost reconnect after 5s; every other (unknown) code reconnects
after 10s. -/
def handleConnectionClose (st : ServerState) (now : Nat)
    (statusCode : Option Nat) : ServerState × CloseAction :=
  let st' := { st with
    botStatus := "disconnected"
    isConnecting := false
    lastConnectionUpdate := some now }
  if statusCode = some DisconnectReason_loggedOut then
    (st', ⟨true, 10000, .initWhatsApp⟩)
  else if statusCode = some DisconnectReason_restartRequired ∨
          statusCode = some DisconnectReason_timedOut ∨
          statusCode = some DisconnectReason_connectionLost then
    (st', ⟨false, 5000, .initWhatsApp⟩)
  else
    (st', ⟨false, 10000, .initWhatsApp⟩)

/-- file.endsWith applied to the .json suffix, over the character data. -/
def endsWithDotJson (f : String) : Bool :=
  (".json".data).isSuffixOf f.data

/-- The credential purge of the loggedOut branch: every file of the auth
directory ending in .json is unlinked. -/
def purgeAuthFiles (files : List String) : List String :=
  files.filter (fun f => !(endsWithDotJson f))

/-! ## HTTP handlers the claims mention -/

/-- The JSON answer of the /verify-code handler. -/
structure VerifyResponse where
  success : Bool
  message : String
  data : Option CodeData
  httpStatus : Nat
deriving DecidableEq

/-- The app.post /verify-code handler. body is req.body.code (none when
the field is absent; the falsy test of the source also rejects the empty
string). The lookup key is the normalized code, falling back to the code
as sent. -/
def verifyCode (m : Registry) (body : Option String) : VerifyResponse :=
  match body with
  | none => ⟨false, "Code is required", none, 400⟩
  | some code =>
    if code = "" then ⟨false, "Code is required", none, 400⟩
    else
      let cleanCode := normalizeCode code
      match (mapGet m cleanCode).orElse (fun _ => mapGet m code) with
      | none => ⟨false, "Invalid pairing code", none, 200⟩
      | some codeData =>
        if codeData.status = "expired" then
          ⟨false, "This pairing code has expired", none, 200⟩
        else if codeData.status = "linked" then
          ⟨true, "Pairing code already linked", some codeData, 200⟩
        else
          ⟨true, "Valid pairing code", some codeData, 200⟩

/-- The fields of the app.get /status answer built from the mirror and
the registry (pairingCodes is pairingCodes.size, the Map entry count). -/
structure StatusResponse where
  status : String
  pairingCodes : Nat
  lastCode : Option String
  qrAttempts : Nat
  maxQrAttempts : Nat
  qrReady : Bool
  online : Bool
deriving DecidableEq

/-- The app.get /status handler. -/
def statusEndpoint (st : ServerState) : StatusResponse :=
  { status := st.botStatus
    pairingCodes := st.pairingCodes.length
    lastCode := st.lastGeneratedDisplayCode
    qrAttempts := st.autoActivationAttempts
    maxQrAttempts := MAX_QR_ATTEMPTS
    qrReady := st.botStatus == "qr_ready"
    online := st.botStatus == "online" }

/-- The pairingCodesCount variable of the GET / page (pairingCodes.size). -/
def rootActiveCodesCount (st : ServerState) : Nat := st.pairingCodes.length

/-! ## The event-loop step relation -/

/-- Reach st t: the server state st occurs at time t in some interleaving
of the event-loop callbacks. Issue steps draw their code from the
generator; a timer fires at any time at or after its due time (the event
loop never fires a timeout early but may deliver it late); the cleanup
sweep and connection events may run at any time. -/
inductive Reach : ServerState → Nat → Prop where
  | init : Reach initialState 0
  | tick {st : ServerState} {t t' : Nat} (h : Reach st t) (hle : t ≤ t') :
      Reach st t'
  | issue {st : ServerState} {t : Nat} (code : String)
      (phoneNumber country : Option String) (sessionId : String)
      (h : Reach st t)
      (hgen : ∃ draws, generateAlphanumericCode draws = some code) :
      Reach (generateNewPairingCode st t code phoneNumber country sessionId).1 t
  | connect {st : ServerState} {t : Nat} (h : Reach st t) :
      Reach (startConnect st t) t
  | connectFailed {st : ServerState} {t : Nat} (h : Reach st t) :
      Reach (initConnectFailure st) t
  | qrEvent {st : ServerState} {t : Nat} (qr : String)
      (renderedImage : Option String) (h : Reach st t) :
      Reach (handleQrEvent st t qr renderedImage) t
  | connOpen {st : ServerState} {t : Nat} (h : Reach st t) :
      Reach (handleConnectionOpen st t) t
  | connClose {st : ServerState} {t : Nat} (statusCode : Option Nat)
      (h : Reach st t) :
      Reach (handleConnectionClose st t statusCode).1 t
  | sweep {st : ServerState} {t : Nat} (h : Reach st t) :
      Reach { st with pairingCodes := cleanupExpiredCodes st.pairingCodes t } t
  | fire {st : ServerState} {t : Nat} (tm : ExpiryTimer) (h : Reach st t)
      (hmem : tm ∈ st.timers) (hdue : tm.due ≤ t) :
      Reach (fireExpiryTimer st tm) t

/-! ## Association-list map lemmas -/

theorem mapGet_mapSet (m : Registry) (k k' : String) (v : CodeData) :
    mapGet (mapSet m k v) k' = if k = k' then some v else mapGet m k' := by
  induction m with
  | nil =>
    by_cases h : k = k' <;> simp [mapSet, mapGet, h]
  | cons e rest ih =>
    by_cases he : e.1 = k
    · by_cases h : k = k'
      · simp [mapSet, mapGet, he, h]
      · have he' : ¬ e.1 = k' := fun hk => h (he.symm.trans hk)
        simp [mapSet, mapGet, he, h, he']
    · simp only [mapSet, if_neg he]
      by_cases h : e.1 = k'
      · have hk : ¬ k = k' := fun hkk => he (h.trans hkk.symm)
        simp [mapGet, h, hk]
      · simp [mapGet, h, ih]

theorem mapGet_mapDelete (m : Registry) (k k' : String) :
    mapGet (mapDelete m k) k' = if k = k' then none else mapGet m k' := by
  induction m with
  | nil => by_cases h : k = k' <;> simp [mapDelete, mapGet, h]
  | cons e rest ih =>
    by_cases he : e.1 = k
    · by_cases h : k = k'
      · simp only [mapDelete, if_pos he, ih, if_pos h]
      · have he' : ¬ e.1 = k' := fun hk => h (he.symm.trans hk)
        simp only [mapDelete, if_pos he, ih, if_neg h, mapGet, if_neg he']
    · by_cases h : e.1 = k'
      · have hk : ¬ k = k' := fun hkk => he (h.trans hkk.symm)
        simp only [mapDelete, if_neg he, mapGet, if_pos h, if_neg hk]
      · simp only [mapDelete, if_neg he, mapGet, if_neg h, ih]

theorem mapGet_some_mem {m : Registry} {k : String} {d : CodeData}
    (h : mapGet m k = some d) : (k, d) ∈ m := by
  induction m with
  | nil => simp [mapGet] at h
  | cons e rest ih =>
    by_cases he : e.1 = k
    · simp only [mapGet, if_pos he] at h
      obtain ⟨k₁, d₁⟩ := e
      cases h
      cases he
      exact List.mem_cons_self _ _
    · simp only [mapGet, if_neg he] at h
      exact List.mem_cons_of_mem _ (ih h)

theorem mapGet_eq_none_iff {m : Registry} {k : String} :
    mapGet m k = none ↔ k ∉ keysOf m := by
  induction m with
  | nil => simp [mapGet, keysOf]
  | cons e rest ih =>
    by_cases he : e.1 = k
    · simp [mapGet, keysOf, he]
    · have he' : k ≠ e.1 := Ne.symm he
      simp [mapGet, keysOf, he, he', ih]

theorem mem_mapGet {m : Registry} {k : String} {d : CodeData}
    (hinv : MapInv m) (h : (k, d) ∈ m) : mapGet m k = some d := by
  induction m with
  | nil => simp at h
  | cons e rest ih =>
    have hinv2 : (e.1 :: keysOf rest).Nodup := hinv
    have hinv' : MapInv rest := (List.nodup_cons.mp hinv2).2
    rcases List.mem_cons.mp h with h1 | h1
    · rw [← h1]
      simp [mapGet]
    · have hk : k ∈ keysOf rest := List.mem_map.mpr ⟨(k, d), h1, rfl⟩
      have he : ¬ e.1 = k := by
        intro hek
        exact (List.nodup_cons.mp hinv2).1 (by rw [hek]; exact hk)
      simp [mapGet, he, ih hinv' h1]

theorem mem_mapSet {m : Registry} {k : String} {v : CodeData} {e : String × CodeData}
    (h : e ∈ mapSet m k v) : e = (k, v) ∨ e ∈ m := by
  induction m with
  | nil => simpa [mapSet] using h
  | cons e₁ rest ih =>
    by_cases he : e₁.1 = k
    · simp only [mapSet, if_pos he] at h
      rcases List.mem_cons.mp h with h1 | h1
      · exact Or.inl h1
      · exact Or.inr (List.mem_cons_of_mem _ h1)
    · simp only [mapSet, if_neg he] at h
      rcases List.mem_cons.mp h with h1 | h1
      · exact Or.inr (h1 ▸ List.mem_cons_self _ _)
      · rcases ih h1 with h2 | h2
        · exact Or.inl h2
        · exact Or.inr (List.mem_cons_of_mem _ h2)

theorem mapDelete_subset {m : Registry} {k : String} {e : String × CodeData}
    (h : e ∈ mapDelete m k) : e ∈ m := by
  induction m with
  | nil => simp [mapDelete] at h
  | cons e₁ rest ih =>
    by_cases he : e₁.1 = k
    · simp only [mapDelete, if_pos he] at h
      exact List.mem_cons_of_mem _ (ih h)
    · simp only [mapDelete, if_neg he] at h
      rcases List.mem_cons.mp h with h1 | h1
      · exact h1 ▸ List.mem_cons_self _ _
      · exact List.mem_cons_of_mem _ (ih h1)

theorem mapDelete_noop {m : Registry} {k : String}
    (h : mapGet m k = none) : mapDelete m k = m := by
  induction m with
  | nil => simp [mapDelete]
  | cons e rest ih =>
    by_cases he : e.1 = k
    · simp [mapGet, he] at h
    · simp only [mapGet, if_neg he] at h
      simp [mapDelete, he, ih h]

theorem keysOf_mapSet_of_present (m : Registry) (k : String) (v : CodeData)
    (h : k ∈ keysOf m) : keysOf (mapSet m k v) = keysOf m := by
  induction m with
  | nil => simp [keysOf] at h
  | cons e rest ih =>
    by_cases he : e.1 = k
    · simp [mapSet, he, keysOf]
    · have h1 : k ∈ keysOf rest := by
        have h2 : k ∈ e.1 :: keysOf rest := h
        rcases List.mem_cons.mp h2 with h3 | h3
        · exact (he h3.symm).elim
        · exact h3
      calc keysOf (mapSet (e :: rest) k v) = e.1 :: keysOf (mapSet rest k v) := by
            simp [mapSet, he, keysOf]
        _ = e.1 :: keysOf rest := by rw [ih h1]
        _ = keysOf (e :: rest) := rfl

theorem keysOf_mapSet_of_absent (m : Registry) (k : String) (v : CodeData)
    (h : k ∉ keysOf m) : keysOf (mapSet m k v) = keysOf m ++ [k] := by
  induction m with
  | nil => simp [mapSet, keysOf]
  | cons e rest ih =>
    have hmem : k ∉ e.1 :: keysOf rest := h
    have he : ¬ e.1 = k := fun hk => hmem (by rw [← hk]; exact List.mem_cons_self _ _)
    have h1 : k ∉ keysOf rest := fun h2 => hmem (List.mem_cons_of_mem _ h2)
    calc keysOf (mapSet (e :: rest) k v) = e.1 :: keysOf (mapSet rest k v) := by
          simp [mapSet, he, keysOf]
      _ = e.1 :: (keysOf rest ++ [k]) := by rw [ih h1]
      _ = keysOf (e :: rest) ++ [k] := rfl

theorem mapInv_mapSet {m : Registry} (k : String) (v : CodeData)
    (hinv : MapInv m) : MapInv (mapSet m k v) := by
  by_cases h : k ∈ keysOf m
  · unfold MapInv
    rw [keysOf_mapSet_of_present m k v h]
    exact hinv
  · unfold MapInv
    rw [keysOf_mapSet_of_absent m k v h]
    simpa [List.nodup_append] using ⟨hinv, fun hk => h hk⟩

theorem keysOf_mapDelete_sublist (m : Registry) (k : String) :
    (keysOf (mapDelete m k)).Sublist (keysOf m) := by
  induction m with
  | nil => simp [mapDelete, keysOf]
  | cons e rest ih =>
    by_cases he : e.1 = k
    · simp only [mapDelete, if_pos he]
      exact ih.trans (List.sublist_cons_self _ _)
    · simp only [mapDelete, if_neg he, keysOf, List.map_cons]
      exact ih.cons₂ _

theorem mapInv_mapDelete {m : Registry} (k : String)
    (hinv : MapInv m) : MapInv (mapDelete m k) :=
  List.Nodup.sublist (keysOf_mapDelete_sublist m k) hinv

theorem length_mapDelete_of_present {m : Registry} {k : String}
    (hinv : MapInv m) (h : k ∈ keysOf m) :
    (mapDelete m k).length + 1 = m.length := by
  induction m with
  | nil => simp [keysOf] at h
  | cons e rest ih =>
    have hinv2 : (e.1 :: keysOf rest).Nodup := hinv
    have hinv' : MapInv rest := (List.nodup_cons.mp hinv2).2
    by_cases he : e.1 = k
    · have hk : k ∉ keysOf rest := he ▸ (List.nodup_cons.mp hinv2).1
      have hnone : mapGet rest k = none := mapGet_eq_none_iff.mpr hk
      simp [mapDelete, he, mapDelete_noop hnone]
    · have h0 : k ∈ e.1 :: keysOf rest := h
      simp only [List.mem_cons] at h0
      rcases h0 with h1 | h1
      · exact (he h1.symm).elim
      · simp only [mapDelete, if_neg he, List.length_cons]
        have := ih hinv' h1
        omega

/-! ## Generator and display-format lemmas -/

theorem codeAlphabet_length : codeAlphabet.length = 32 := by decide

theorem codeCharAt_mem (i : Fin 32) : codeCharAt i ∈ codeAlphabet := by
  have := i.isLt
  fin_cases i <;> decide

theorem attemptCode_data (d : Draw8) :
    (attemptCode d).data =
      [codeCharAt d.c0, codeCharAt d.c1, codeCharAt d.c2, codeCharAt d.c3,
       codeCharAt d.c4, codeCharAt d.c5, codeCharAt d.c6, codeCharAt d.c7] := rfl

theorem attemptCode_length (d : Draw8) : (attemptCode d).length = 8 := rfl

theorem attemptCode_mem_alphabet (d : Draw8) :
    ∀ c ∈ (attemptCode d).data, c ∈ codeAlphabet := by
  intro c hc
  rw [attemptCode_data] at hc
  simp only [List.mem_cons, List.not_mem_nil, or_false] at hc
  rcases hc with h | h | h | h | h | h | h | h <;> exact h ▸ codeCharAt_mem _

theorem generateAlphanumericCode_spec {draws : List Draw8} {code : String}
    (h : generateAlphanumericCode draws = some code) :
    code.length = 8 ∧
    (∀ c ∈ code.data, c ∈ codeAlphabet) ∧
    2 ≤ letterCount code ∧ 2 ≤ numberCount code := by
  induction draws with
  | nil => simp [generateAlphanumericCode] at h
  | cons d rest ih =>
    simp only [generateAlphanumericCode] at h
    by_cases hcond :
        (decide (letterCount (attemptCode d) < 2) ||
         decide (numberCount (attemptCode d) < 2)) = true
    · rw [if_pos hcond] at h
      exact ih h
    · rw [if_neg hcond] at h
      cases h
      simp only [Bool.or_eq_true, decide_eq_true_eq, not_or, not_lt] at hcond
      exact ⟨attemptCode_length d, attemptCode_mem_alphabet d, hcond.1, hcond.2⟩

theorem alphabet_char_class :
    ∀ c ∈ codeAlphabet,
      (isUpperAZ c = true ∧ c ≠ 'I' ∧ c ≠ 'O') ∨
      (isDigit09 c = true ∧ '2' ≤ c ∧ c ≤ '9') := by decide

theorem alphabet_no_dash : ∀ c ∈ codeAlphabet, c ≠ '-' := by decide

theorem alphabet_toUpper : ∀ c ∈ codeAlphabet, c.toUpper = c := by decide

theorem alphabet_alnum : ∀ c ∈ codeAlphabet, (isUpperAZ c || isDigit09 c) = true := by
  decide

theorem formatDisplayCode_data {code : String} (h : code.length = 8) :
    (formatDisplayCode code).data = code.data.take 4 ++ '-' :: code.data.drop 4 := by
  simp [formatDisplayCode, h]

theorem data_length (s : String) : s.data.length = s.length := rfl

theorem formatDisplayCode_length {code : String} (h : code.length = 8) :
    (formatDisplayCode code).length = 9 := by
  have hd : code.data.length = 8 := h
  show (formatDisplayCode code).data.length = 9
  rw [formatDisplayCode_data h]
  simp [hd]

theorem formatDisplayCode_ne {code : String} (h : code.length = 8) :
    formatDisplayCode code ≠ code := by
  intro heq
  have h9 : (formatDisplayCode code).length = 9 := formatDisplayCode_length h
  rw [heq, h] at h9
  exact absurd h9 (by decide)

theorem filter_ne_dash_of_alphabet {l : List Char}
    (h : ∀ c ∈ l, c ∈ codeAlphabet) : l.filter (fun c => c != '-') = l :=
  List.filter_eq_self.mpr (fun c hc => by
    simpa [bne_iff_ne] using alphabet_no_dash c (h c hc))

theorem map_toUpper_of_alphabet {l : List Char}
    (h : ∀ c ∈ l, c ∈ codeAlphabet) : l.map Char.toUpper = l := by
  have h1 : l.map Char.toUpper = l.map id :=
    List.map_congr_left (fun c hc => alphabet_toUpper c (h c hc))
  simpa using h1

theorem normalizeCode_of_alphabet {code : String}
    (h : ∀ c ∈ code.data, c ∈ codeAlphabet) : normalizeCode code = code := by
  unfold normalizeCode
  rw [filter_ne_dash_of_alphabet h, map_toUpper_of_alphabet h]

theorem normalizeCode_formatDisplayCode {code : String} (hlen : code.length = 8)
    (h : ∀ c ∈ code.data, c ∈ codeAlphabet) :
    normalizeCode (formatDisplayCode code) = code := by
  unfold normalizeCode
  rw [formatDisplayCode_data hlen]
  have hcons : ('-' :: code.data.drop 4).filter (fun c => c != '-') =
      (code.data.drop 4).filter (fun c => c != '-') := rfl
  have hfilter : (code.data.take 4 ++ '-' :: code.data.drop 4).filter (fun c => c != '-') =
      code.data.take 4 ++ code.data.drop 4 := by
    rw [List.filter_append, hcons,
      filter_ne_dash_of_alphabet (fun c hc => h c (List.mem_of_mem_take hc)),
      filter_ne_dash_of_alphabet (fun c hc => h c (List.mem_of_mem_drop hc))]
  rw [hfilter, List.take_append_drop, map_toUpper_of_alphabet h]

theorem formatDisplayCode_inj {a b : String} (ha : a.length = 8) (hb : b.length = 8)
    (h : formatDisplayCode a = formatDisplayCode b) : a = b := by
  have hda : (formatDisplayCode a).data = a.data.take 4 ++ '-' :: a.data.drop 4 :=
    formatDisplayCode_data ha
  have hdb : (formatDisplayCode b).data = b.data.take 4 ++ '-' :: b.data.drop 4 :=
    formatDisplayCode_data hb
  have hdd : a.data.take 4 ++ '-' :: a.data.drop 4 = b.data.take 4 ++ '-' :: b.data.drop 4 := by
    rw [← hda, ← hdb, h]
  have hlen : (a.data.take 4).length = (b.data.take 4).length := by
    have ha8 : a.data.length = 8 := ha
    have hb8 : b.data.length = 8 := hb
    simp [ha8, hb8]
  obtain ⟨h1, h2⟩ := List.append_inj hdd hlen
  have h3 : a.data.drop 4 = b.data.drop 4 := by
    injection h2
  have : a.data = b.data := by
    rw [← List.take_append_drop 4 a.data, ← List.take_append_drop 4 b.data, h1, h3]
  cases a; cases b
  exact congrArg String.mk this

/-- A character admitted by the character class [A-Z0-9]. -/
def isAZ09 (c : Char) : Bool := isUpperAZ c || isDigit09 c

/-- A match of the display-code regex: four [A-Z0-9] characters, a dash,
four [A-Z0-9] characters, nothing else. -/
def matchesDisplayPattern (s : String) : Bool :=
  match s.data with
  | [c0, c1, c2, c3, c4, c5, c6, c7, c8] =>
    isAZ09 c0 && isAZ09 c1 && isAZ09 c2 && isAZ09 c3 &&
    (c4 == '-') &&
    isAZ09 c5 && isAZ09 c6 && isAZ09 c7 && isAZ09 c8
  | _ => false

theorem exists_eight {l : List Char} (h : l.length = 8) :
    ∃ a0 a1 a2 a3 a4 a5 a6 a7, l = [a0, a1, a2, a3, a4, a5, a6, a7] := by
  obtain ⟨a0, l1, rfl⟩ := List.exists_of_length_succ l h
  have h1 : l1.length = 7 := by simp only [List.length_cons] at h; omega
  obtain ⟨a1, l2, rfl⟩ := List.exists_of_length_succ l1 h1
  have h2 : l2.length = 6 := by simp only [List.length_cons] at h1; omega
  obtain ⟨a2, l3, rfl⟩ := List.exists_of_length_succ l2 h2
  have h3 : l3.length = 5 := by simp only [List.length_cons] at h2; omega
  obtain ⟨a3, l4, rfl⟩ := List.exists_of_length_succ l3 h3
  have h4 : l4.length = 4 := by simp only [List.length_cons] at h3; omega
  obtain ⟨a4, l5, rfl⟩ := List.exists_of_length_succ l4 h4
  have h5 : l5.length = 3 := by simp only [List.length_cons] at h4; omega
  obtain ⟨a5, l6, rfl⟩ := List.exists_of_length_succ l5 h5
  have h6 : l6.length = 2 := by simp only [List.length_cons] at h5; omega
  obtain ⟨a6, l7, rfl⟩ := List.exists_of_length_succ l6 h6
  have h7 : l7.length = 1 := by simp only [List.length_cons] at h6; omega
  obtain ⟨a7, l8, rfl⟩ := List.exists_of_length_succ l7 h7
  have h8 : l8.length = 0 := by simp only [List.length_cons] at h7; omega
  obtain rfl : l8 = [] := List.length_eq_zero.mp h8
  exact ⟨a0, a1, a2, a3, a4, a5, a6, a7, rfl⟩

theorem matchesDisplayPattern_formatDisplayCode {code : String}
    (hlen : code.length = 8) (h : ∀ c ∈ code.data, c ∈ codeAlphabet) :
    matchesDisplayPattern (formatDisplayCode code) = true := by
  obtain ⟨a0, a1, a2, a3, a4, a5, a6, a7, hd⟩ := exists_eight (l := code.data) hlen
  have hfd : (formatDisplayCode code).data = [a0, a1, a2, a3, '-', a4, a5, a6, a7] := by
    rw [formatDisplayCode_data hlen, hd]
    rfl
  have h0 := alphabet_alnum a0 (h a0 (by rw [hd]; simp))
  have h1 := alphabet_alnum a1 (h a1 (by rw [hd]; simp))
  have h2 := alphabet_alnum a2 (h a2 (by rw [hd]; simp))
  have h3 := alphabet_alnum a3 (h a3 (by rw [hd]; simp))
  have h4 := alphabet_alnum a4 (h a4 (by rw [hd]; simp))
  have h5 := alphabet_alnum a5 (h a5 (by rw [hd]; simp))
  have h6 := alphabet_alnum a6 (h a6 (by rw [hd]; simp))
  have h7 := alphabet_alnum a7 (h a7 (by rw [hd]; simp))
  unfold matchesDisplayPattern
  rw [hfd]
  simp [isAZ09, h0, h1, h2, h3, h4, h5, h6, h7]

theorem verifyCode_of_get_pending {m : Registry} {s : String} {d : CodeData}
    (hs : ¬ s = "") (hget : mapGet m (normalizeCode s) = some d)
    (hstatus : d.status = "pending") :
    verifyCode m (some s) = ⟨true, "Valid pairing code", some d, 200⟩ := by
  have h2 : (mapGet m (normalizeCode s)).orElse (fun _ => mapGet m s) = some d := by
    rw [hget]; rfl
  simp [verifyCode, hs, h2, hstatus]

/-! ## Claim C6: generator output shape -/

/-- C6: every code returned by generateAlphanumericCode has exactly 8
characters, each drawn from the fixed 32-symbol alphabet (an uppercase
letter that is neither I nor O, or a digit between 2 and 9), and the
code has at least 2 letters and at least 2 digits. -/
theorem C6_generator_output_spec (draws : List Draw8) (code : String)
    (h : generateAlphanumericCode draws = some code) :
    code.length = 8 ∧
    (∀ c ∈ code.data, c ∈ codeAlphabet) ∧
    (∀ c ∈ code.data,
      (isUpperAZ c = true ∧ c ≠ 'I' ∧ c ≠ 'O') ∨
      (isDigit09 c = true ∧ '2' ≤ c ∧ c ≤ '9')) ∧
    2 ≤ letterCount code ∧ 2 ≤ numberCount code := by
  obtain ⟨hlen, halpha, hl, hn⟩ := generateAlphanumericCode_spec h
  exact ⟨hlen, halpha, fun c hc => alphabet_char_class c (halpha c hc), hl, hn⟩

theorem C6_generator_output_spec_witness :
    generateAlphanumericCode [⟨0, 1, 24, 25, 2, 3, 26, 27⟩] = some "AB23CD45" ∧
    ("AB23CD45".length = 8 ∧
     (∀ c ∈ "AB23CD45".data, c ∈ codeAlphabet) ∧
     (∀ c ∈ "AB23CD45".data,
       (isUpperAZ c = true ∧ c ≠ 'I' ∧ c ≠ 'O') ∨
       (isDigit09 c = true ∧ '2' ≤ c ∧ c ≤ '9')) ∧
     2 ≤ letterCount "AB23CD45" ∧ 2 ≤ numberCount "AB23CD45") :=
  ⟨by decide,
   C6_generator_output_spec [⟨0, 1, 24, 25, 2, 3, 26, 27⟩] "AB23CD45" (by decide)⟩

/-! ## Claim C8: display-format round trip -/

/-- C8: for every code produced by the generator, formatting it for
display (formatDisplayCode) and then applying the lookup normalization
of /verify-code (strip dashes, uppercase) recovers the original code
exactly. -/
theorem C8_display_roundtrip (draws : List Draw8) (code : String)
    (h : generateAlphanumericCode draws = some code) :
    normalizeCode (formatDisplayCode code) = code := by
  obtain ⟨hlen, halpha, _, _⟩ := generateAlphanumericCode_spec h
  exact normalizeCode_formatDisplayCode hlen halpha

theorem C8_display_roundtrip_witness :
    generateAlphanumericCode [⟨4, 5, 28, 29, 6, 7, 30, 31⟩] = some "EF67GH89" ∧
    normalizeCode (formatDisplayCode "EF67GH89") = "EF67GH89" :=
  ⟨by decide,
   C8_display_roundtrip [⟨4, 5, 28, 29, 6, 7, 30, 31⟩] "EF67GH89" (by decide)⟩

/-! ## Claim C1: issuance postconditions -/

/-- C1: a successful generateNewPairingCode call returns a pending
result, and the stored record has status pending, a display code
matching the [A-Z0-9]{4}-[A-Z0-9]{4} pattern, expiresAt minus createdAt
equal to CODE_EXPIRY_MINUTES minutes, and is retrievable immediately from
the registry under both its raw 8-character code and its display form,
including through the normalizing /verify-code lookup. -/
theorem C1_issue_pending_retrievable (st : ServerState) (now : Nat)
    (code : String) (phoneNumber country : Option String) (sessionId : String)
    (hgen : ∃ draws, generateAlphanumericCode draws = some code) :
    ∃ d : CodeData,
      (generateNewPairingCode st now code phoneNumber country sessionId).2.status = "pending" ∧
      (generateNewPairingCode st now code phoneNumber country sessionId).2.displayCode =
        formatDisplayCode code ∧
      mapGet (generateNewPairingCode st now code phoneNumber country sessionId).1.pairingCodes
        code = some d ∧
      mapGet (generateNewPairingCode st now code phoneNumber country sessionId).1.pairingCodes
        (formatDisplayCode code) = some d ∧
      d.status = "pending" ∧
      d.displayCode = formatDisplayCode code ∧
      matchesDisplayPattern d.displayCode = true ∧
      d.expiresAt - d.createdAt = CODE_EXPIRY_MINUTES * 60 * 1000 ∧
      (generateNewPairingCode st now code phoneNumber country sessionId).2.expiresAt =
        d.expiresAt ∧
      verifyCode (generateNewPairingCode st now code phoneNumber country sessionId).1.pairingCodes
        (some code) = ⟨true, "Valid pairing code", some d, 200⟩ ∧
      verifyCode (generateNewPairingCode st now code phoneNumber country sessionId).1.pairingCodes
        (some (formatDisplayCode code)) = ⟨true, "Valid pairing code", some d, 200⟩ := by
  obtain ⟨draws, hdraws⟩ := hgen
  obtain ⟨hlen, halpha, _, _⟩ := generateAlphanumericCode_spec hdraws
  have hne : formatDisplayCode code ≠ code := formatDisplayCode_ne hlen
  set d : CodeData :=
    { code := code
      displayCode := formatDisplayCode code
      phoneNumber := phoneNumber
      country := country
      sessionId := sessionId
      status := "pending"
      createdAt := now
      expiresAt := now + CODE_EXPIRY_MINUTES * 60 * 1000
      linkedAt := none
      qrData := st.currentQR
      qrImage := st.qrImageDataUrl
      attempts := 0
      generatedBy := COMPANY_NAME
      botStatus := st.botStatus
      isValid := true } with hdd
  have hreg : (generateNewPairingCode st now code phoneNumber country sessionId).1.pairingCodes =
      mapSet (mapSet st.pairingCodes code d) (formatDisplayCode code) d := rfl
  have hget1 : mapGet
      (generateNewPairingCode st now code phoneNumber country sessionId).1.pairingCodes code =
      some d := by
    rw [hreg, mapGet_mapSet, if_neg hne, mapGet_mapSet, if_pos rfl]
  have hget2 : mapGet
      (generateNewPairingCode st now code phoneNumber country sessionId).1.pairingCodes
      (formatDisplayCode code) = some d := by
    rw [hreg, mapGet_mapSet, if_pos rfl]
  have hcode_ne : ¬ code = "" := by
    intro h0
    rw [h0] at hlen
    exact absurd hlen (by decide)
  have hdisp_ne : ¬ formatDisplayCode code = "" := by
    intro h0
    have h9 := formatDisplayCode_length hlen
    rw [h0] at h9
    exact absurd h9 (by decide)
  have hnorm1 : normalizeCode code = code := normalizeCode_of_alphabet halpha
  have hnorm2 : normalizeCode (formatDisplayCode code) = code :=
    normalizeCode_formatDisplayCode hlen halpha
  refine ⟨d, rfl, rfl, hget1, hget2, rfl, rfl,
    matchesDisplayPattern_formatDisplayCode hlen halpha, by simp [hdd], rfl, ?_, ?_⟩
  · exact verifyCode_of_get_pending hcode_ne (by rw [hnorm1]; exact hget1) rfl
  · exact verifyCode_of_get_pending hdisp_ne (by rw [hnorm2]; exact hget1) rfl

theorem C1_issue_pending_retrievable_witness :
    (∃ draws, generateAlphanumericCode draws = some "AB23CD45") ∧
    (∃ d : CodeData,
      (generateNewPairingCode initialState 0 "AB23CD45" (some "+254723278526")
        (some "KE") "IAN_TECH_0_AAAA").2.status = "pending" ∧
      (generateNewPairingCode initialState 0 "AB23CD45" (some "+254723278526")
        (some "KE") "IAN_TECH_0_AAAA").2.displayCode = formatDisplayCode "AB23CD45" ∧
      mapGet (generateNewPairingCode initialState 0 "AB23CD45" (some "+254723278526")
        (some "KE") "IAN_TECH_0_AAAA").1.pairingCodes "AB23CD45" = some d ∧
      mapGet (generateNewPairingCode initialState 0 "AB23CD45" (some "+254723278526")
        (some "KE") "IAN_TECH_0_AAAA").1.pairingCodes
        (formatDisplayCode "AB23CD45") = some d ∧
      d.status = "pending" ∧
      d.displayCode = formatDisplayCode "AB23CD45" ∧
      matchesDisplayPattern d.displayCode = true ∧
      d.expiresAt - d.createdAt = CODE_EXPIRY_MINUTES * 60 * 1000 ∧
      (generateNewPairingCode initialState 0 "AB23CD45" (some "+254723278526")
        (some "KE") "IAN_TECH_0_AAAA").2.expiresAt = d.expiresAt ∧
      verifyCode (generateNewPairingCode initialState 0 "AB23CD45" (some "+254723278526")
        (some "KE") "IAN_TECH_0_AAAA").1.pairingCodes
        (some "AB23CD45") = ⟨true, "Valid pairing code", some d, 200⟩ ∧
      verifyCode (generateNewPairingCode initialState 0 "AB23CD45" (some "+254723278526")
        (some "KE") "IAN_TECH_0_AAAA").1.pairingCodes
        (some (formatDisplayCode "AB23CD45")) = ⟨true, "Valid pairing code", some d, 200⟩) :=
  ⟨⟨[⟨0, 1, 24, 25, 2, 3, 26, 27⟩], by decide⟩,
   C1_issue_pending_retrievable initialState 0 "AB23CD45" (some "+254723278526")
     (some "KE") "IAN_TECH_0_AAAA" ⟨[⟨0, 1, 24, 25, 2, 3, 26, 27⟩], by decide⟩⟩

/-! ## Claim C2: the open event -/

theorem mapGet_linkAll (m : Registry) (now : Nat) (k : String) :
    mapGet (m.map (fun e =>
      if e.2.status = "pending" then
        (e.1, { e.2 with status := "linked", linkedAt := some now })
      else e)) k =
    (mapGet m k).map (fun d =>
      if d.status = "pending" then
        { d with status := "linked", linkedAt := some now }
      else d) := by
  induction m with
  | nil => rfl
  | cons e rest ih =>
    by_cases hp : e.2.status = "pending" <;> by_cases hk : e.1 = k <;>
      simp [mapGet, hp, hk, ih]

/-- C2: on the open connection event the mirror transitions to online,
the QR attempt counter resets to zero, the in-flight connecting flag
clears, every pending registry record transitions to linked with
linkedAt set, and every record whose status is not pending is left
entirely unchanged. -/
theorem C2_open_marks_all_pending_linked (st : ServerState) (now : Nat) :
    (handleConnectionOpen st now).botStatus = "online" ∧
    (handleConnectionOpen st now).autoActivationAttempts = 0 ∧
    (handleConnectionOpen st now).isConnecting = false ∧
    (∀ k d, mapGet st.pairingCodes k = some d → d.status = "pending" →
      mapGet (handleConnectionOpen st now).pairingCodes k =
        some { d with status := "linked", linkedAt := some now }) ∧
    (∀ k d, mapGet st.pairingCodes k = some d → d.status ≠ "pending" →
      mapGet (handleConnectionOpen st now).pairingCodes k = some d) := by
  refine ⟨rfl, rfl, rfl, ?_, ?_⟩
  · intro k d hget hp
    show mapGet (st.pairingCodes.map _) k = _
    rw [mapGet_linkAll, hget]
    simp [hp]
  · intro k d hget hp
    show mapGet (st.pairingCodes.map _) k = _
    rw [mapGet_linkAll, hget]
    simp [hp]

/-- A concrete one-record state used by the C2 witness. -/
def exC2state : ServerState :=
  (generateNewPairingCode initialState 0 "AB23CD45" none none "S").1

/-- The record exC2state stores under AB23CD45. -/
def exC2record : CodeData :=
  { code := "AB23CD45"
    displayCode := "AB23-CD45"
    phoneNumber := none
    country := none
    sessionId := "S"
    status := "pending"
    createdAt := 0
    expiresAt := 600000
    linkedAt := none
    qrData := none
    qrImage := none
    attempts := 0
    generatedBy := "IAN TECH"
    botStatus := "disconnected"
    isValid := true }

theorem C2_open_marks_all_pending_linked_witness :
    (mapGet exC2state.pairingCodes "AB23CD45" = some exC2record ∧
     exC2record.status = "pending") ∧
    mapGet (handleConnectionOpen exC2state 5).pairingCodes "AB23CD45" =
      some { exC2record with status := "linked", linkedAt := some 5 } :=
  ⟨⟨by decide, by decide⟩,
   (C2_open_marks_all_pending_linked exC2state 5).2.2.2.1 "AB23CD45" exC2record
     (by decide) (by decide)⟩

/-! ## Claim C7: the close event -/

theorem handleConnectionClose_fst (st : ServerState) (now : Nat)
    (statusCode : Option Nat) :
    (handleConnectionClose st now statusCode).1 =
      { st with
        botStatus := "disconnected"
        isConnecting := false
        lastConnectionUpdate := some now } := by
  unfold handleConnectionClose
  by_cases h1 : statusCode = some DisconnectReason_loggedOut
  · simp [h1]
  · by_cases h2 : statusCode = some DisconnectReason_restartRequired ∨
        statusCode = some DisconnectReason_timedOut ∨
        statusCode = some DisconnectReason_connectionLost <;>
      simp [h1, h2]

/-- C7: every close event sets the mirror disconnected and clears the
in-flight flag; the reason code classifies the follow-up: loggedOut
purges the .json credential files of the auth directory and schedules an
initWhatsApp reconnect after 10s; restartRequired, timedOut and
connectionLost schedule it after 5s with no purge; any other (unknown)
code schedules it after 10s with no purge; every path schedules the
reconnect, and the purge leaves no .json file behind. -/
theorem C7_close_classification (st : ServerState) (now : Nat)
    (statusCode : Option Nat) :
    (handleConnectionClose st now statusCode).1.botStatus = "disconnected" ∧
    (handleConnectionClose st now statusCode).1.isConnecting = false ∧
    (handleConnectionClose st now statusCode).2.reconnectCall =
      ScheduledCall.initWhatsApp ∧
    (statusCode = some DisconnectReason_loggedOut →
      (handleConnectionClose st now statusCode).2 =
        ⟨true, 10000, ScheduledCall.initWhatsApp⟩) ∧
    ((statusCode = some DisconnectReason_restartRequired ∨
      statusCode = some DisconnectReason_timedOut ∨
      statusCode = some DisconnectReason_connectionLost) →
      (handleConnectionClose st now statusCode).2 =
        ⟨false, 5000, ScheduledCall.initWhatsApp⟩) ∧
    ((statusCode ≠ some DisconnectReason_loggedOut ∧
      ¬(statusCode = some DisconnectReason_restartRequired ∨
        statusCode = some DisconnectReason_timedOut ∨
        statusCode = some DisconnectReason_connectionLost)) →
      (handleConnectionClose st now statusCode).2 =
        ⟨false, 10000, ScheduledCall.initWhatsApp⟩) ∧
    (∀ files f, f ∈ purgeAuthFiles files → endsWithDotJson f = false) := by
  refine ⟨?_, ?_, ?_, ?_, ?_, ?_, ?_⟩
  · rw [handleConnectionClose_fst]
  · rw [handleConnectionClose_fst]
  · unfold handleConnectionClose
    by_cases h1 : statusCode = some DisconnectReason_loggedOut
    · simp [h1]
    · by_cases h2 : statusCode = some DisconnectReason_restartRequired ∨
          statusCode = some DisconnectReason_timedOut ∨
          statusCode = some DisconnectReason_connectionLost <;>
        simp [h1, h2]
  · intro h1
    unfold handleConnectionClose
    simp [h1]
  · intro h2
    have h1 : ¬ statusCode = some DisconnectReason_loggedOut := by
      rcases h2 with h | h | h <;> rw [h] <;> decide
    unfold handleConnectionClose
    simp [h1, h2]
  · intro ⟨h1, h2⟩
    unfold handleConnectionClose
    simp [h1, h2]
  · intro files f hf
    have := List.mem_filter.mp hf
    simpa using this.2

theorem C7_close_classification_witness :
    some DisconnectReason_loggedOut = some DisconnectReason_loggedOut ∧
    (handleConnectionClose initialState 7 (some DisconnectReason_loggedOut)).1.botStatus =
      "disconnected" ∧
    (handleConnectionClose initialState 7 (some DisconnectReason_loggedOut)).2 =
      ⟨true, 10000, ScheduledCall.initWhatsApp⟩ ∧
    ("other.txt" ∈ purgeAuthFiles ["creds.json", "keys.json", "other.txt"] ∧
     endsWithDotJson "other.txt" = false) :=
  ⟨rfl,
   (C7_close_classification initialState 7 (some DisconnectReason_loggedOut)).1,
   (C7_close_classification initialState 7 (some DisconnectReason_loggedOut)).2.2.2.1 rfl,
   by decide,
   (C7_close_classification initialState 7 (some DisconnectReason_loggedOut)).2.2.2.2.2.2
     ["creds.json", "keys.json", "other.txt"] "other.txt" (by decide)⟩

/-! ## Cleanup sweep lemmas -/

theorem mem_sweep_iff {m : Registry} {now : Nat} {e : String × CodeData} :
    e ∈ sweepExpiredEntries m now ↔
      e ∈ m ∧ ¬(e.2.expiresAt < now ∧ e.2.status = "pending") := by
  simp only [sweepExpiredEntries, List.mem_filter, Bool.not_eq_true', Bool.and_eq_false_iff,
    decide_eq_false_iff_not, beq_eq_false_iff_ne, ne_eq]
  tauto

theorem sweep_sublist (m : Registry) (now : Nat) :
    (sweepExpiredEntries m now).Sublist m := List.filter_sublist m

theorem mapInv_sweep {m : Registry} (now : Nat) (hinv : MapInv m) :
    MapInv (sweepExpiredEntries m now) :=
  List.Nodup.sublist (List.Sublist.map Prod.fst (sweep_sublist m now)) hinv

/-- The key-deletion fold of the capacity eviction. -/
def deleteAll (m : Registry) (es : List (String × CodeData)) : Registry :=
  es.foldl (fun acc e => mapDelete acc e.1) m

theorem deleteAll_eq (m : Registry) (es : List (String × CodeData)) :
    es.foldl (fun acc e => mapDelete acc e.1) m = deleteAll m es := rfl

theorem mapGet_deleteAll (m : Registry) (es : List (String × CodeData)) (k : String) :
    mapGet (deleteAll m es) k =
      if k ∈ es.map Prod.fst then none else mapGet m k := by
  induction es generalizing m with
  | nil => simp [deleteAll]
  | cons e rest ih =>
    have hstep : deleteAll m (e :: rest) = deleteAll (mapDelete m e.1) rest := rfl
    rw [hstep, ih]
    by_cases hmem : k ∈ rest.map Prod.fst
    · simp [hmem]
    · by_cases hk : e.1 = k
      · simp [hmem, hk, mapGet_mapDelete]
      · have : ¬ k = e.1 := fun h => hk h.symm
        simp [hmem, hk, this, mapGet_mapDelete]

theorem deleteAll_subset {m : Registry} {es : List (String × CodeData)}
    {e : String × CodeData} (h : e ∈ deleteAll m es) : e ∈ m := by
  induction es generalizing m with
  | nil => exact h
  | cons e₁ rest ih =>
    have hstep : deleteAll m (e₁ :: rest) = deleteAll (mapDelete m e₁.1) rest := rfl
    rw [hstep] at h
    exact mapDelete_subset (ih h)

theorem mapInv_deleteAll {m : Registry} (es : List (String × CodeData))
    (hinv : MapInv m) : MapInv (deleteAll m es) := by
  induction es generalizing m with
  | nil => exact hinv
  | cons e rest ih =>
    have hstep : deleteAll m (e :: rest) = deleteAll (mapDelete m e.1) rest := rfl
    rw [hstep]
    exact ih (mapInv_mapDelete _ hinv)

theorem length_deleteAll {m : Registry} {es : List (String × CodeData)}
    (hinv : MapInv m) (hnodup : (es.map Prod.fst).Nodup)
    (hpresent : ∀ k ∈ es.map Prod.fst, k ∈ keysOf m) :
    (deleteAll m es).length + es.length = m.length := by
  induction es generalizing m with
  | nil => simp [deleteAll]
  | cons e rest ih =>
    have hstep : deleteAll m (e :: rest) = deleteAll (mapDelete m e.1) rest := rfl
    have hnodup' : (rest.map Prod.fst).Nodup := (List.nodup_cons.mp hnodup).2
    have hhead : e.1 ∉ rest.map Prod.fst := (List.nodup_cons.mp hnodup).1
    have hpres1 : e.1 ∈ keysOf m := hpresent e.1 (by simp)
    have hpres' : ∀ k ∈ rest.map Prod.fst, k ∈ keysOf (mapDelete m e.1) := by
      intro k hk
      have hkm : k ∈ keysOf m := hpresent k (by simp [hk])
      have hne : ¬ e.1 = k := fun h => hhead (h ▸ hk)
      have h1 : mapGet m k ≠ none := fun h => (mapGet_eq_none_iff.mp h) hkm
      have h2 : mapGet (mapDelete m e.1) k ≠ none := by
        rw [mapGet_mapDelete, if_neg hne]
        exact h1
      by_contra hknot
      exact h2 (mapGet_eq_none_iff.mpr hknot)
    have hlen1 : (mapDelete m e.1).length + 1 = m.length :=
      length_mapDelete_of_present hinv hpres1
    have := ih (mapInv_mapDelete _ hinv) hnodup' hpres'
    rw [hstep] at *
    simp only [List.length_cons]
    omega

theorem createdAtLe_trans : ∀ a b c : String × CodeData,
    createdAtLe a b = true → createdAtLe b c = true → createdAtLe a c = true := by
  intro a b c hab hbc
  simp only [createdAtLe, decide_eq_true_eq] at *
  omega

theorem createdAtLe_total : ∀ a b : String × CodeData,
    (createdAtLe a b || createdAtLe b a) = true := by
  intro a b
  by_cases h : a.2.createdAt ≤ b.2.createdAt
  · simp [createdAtLe, h]
  · simp [createdAtLe, h]
    omega

theorem mem_cleanup_subset {m : Registry} {now : Nat} {e : String × CodeData}
    (h : e ∈ cleanupExpiredCodes m now) : e ∈ sweepExpiredEntries m now := by
  unfold cleanupExpiredCodes at h
  by_cases hb : MAX_SESSIONS < (sweepExpiredEntries m now).length
  · rw [if_pos hb] at h
    rw [deleteAll_eq] at h
    exact deleteAll_subset h
  · rwa [if_neg hb] at h

theorem mapInv_cleanup {m : Registry} (now : Nat) (hinv : MapInv m) :
    MapInv (cleanupExpiredCodes m now) := by
  unfold cleanupExpiredCodes
  by_cases hb : MAX_SESSIONS < (sweepExpiredEntries m now).length
  · rw [if_pos hb, deleteAll_eq]
    exact mapInv_deleteAll _ (mapInv_sweep now hinv)
  · rw [if_neg hb]
    exact mapInv_sweep now hinv

instance decidableMapInv (m : Registry) : Decidable (MapInv m) :=
  inferInstanceAs (Decidable ((keysOf m).Nodup))

/-- The entries the capacity rule of cleanupExpiredCodes deletes: the
oldest (count - MAX_SESSIONS) entries of the createdAt sort. -/
def capRemove (A : Registry) : List (String × CodeData) :=
  (A.mergeSort createdAtLe).take (A.length - MAX_SESSIONS)

theorem cleanup_eq_of_branch {m : Registry} {now : Nat}
    (hb : MAX_SESSIONS < (sweepExpiredEntries m now).length) :
    cleanupExpiredCodes m now =
      deleteAll (sweepExpiredEntries m now) (capRemove (sweepExpiredEntries m now)) := by
  unfold cleanupExpiredCodes capRemove
  rw [if_pos hb, deleteAll_eq]

theorem cleanup_eq_of_not_branch {m : Registry} {now : Nat}
    (hb : ¬ MAX_SESSIONS < (sweepExpiredEntries m now).length) :
    cleanupExpiredCodes m now = sweepExpiredEntries m now := by
  unfold cleanupExpiredCodes
  rw [if_neg hb]

theorem capRemove_keys_nodup {A : Registry} (hinvA : MapInv A) :
    ((capRemove A).map Prod.fst).Nodup := by
  have hperm : List.Perm (A.mergeSort createdAtLe) A := List.mergeSort_perm A createdAtLe
  have hkeys_sorted : ((A.mergeSort createdAtLe).map Prod.fst).Nodup :=
    (hperm.map Prod.fst).nodup_iff.mpr hinvA
  exact List.Nodup.sublist
    (List.Sublist.map Prod.fst (List.take_sublist _ _)) hkeys_sorted

theorem capRemove_keys_present {A : Registry} :
    ∀ k ∈ (capRemove A).map Prod.fst, k ∈ keysOf A := by
  intro k hk
  obtain ⟨e, he, rfl⟩ := List.mem_map.mp hk
  have h1 : e ∈ A.mergeSort createdAtLe := List.mem_of_mem_take he
  exact List.mem_map.mpr ⟨e, (List.mergeSort_perm A createdAtLe).mem_iff.mp h1, rfl⟩

theorem capRemove_length {A : Registry} (hb : MAX_SESSIONS < A.length) :
    (capRemove A).length = A.length - MAX_SESSIONS := by
  unfold capRemove
  rw [List.length_take, (List.mergeSort_perm A createdAtLe).length_eq]
  omega

theorem cleanup_length_le (m : Registry) (now : Nat) (hinv : MapInv m) :
    (cleanupExpiredCodes m now).length ≤ MAX_SESSIONS := by
  have hinvA : MapInv (sweepExpiredEntries m now) := mapInv_sweep now hinv
  by_cases hb : MAX_SESSIONS < (sweepExpiredEntries m now).length
  · have hdel := length_deleteAll hinvA (capRemove_keys_nodup hinvA)
      (capRemove_keys_present (A := sweepExpiredEntries m now))
    rw [cleanup_eq_of_branch hb]
    rw [capRemove_length hb] at hdel
    omega
  · rw [cleanup_eq_of_not_branch hb]
    omega

theorem cleanup_fifo (m : Registry) (now : Nat) (hinv : MapInv m) :
    ∀ k d, (k, d) ∈ sweepExpiredEntries m now →
      mapGet (cleanupExpiredCodes m now) k = none →
      ∀ k' d', mapGet (cleanupExpiredCodes m now) k' = some d' →
        d.createdAt ≤ d'.createdAt := by
  have hinvA : MapInv (sweepExpiredEntries m now) := mapInv_sweep now hinv
  intro k d hmemA hnone k' d' hget'
  by_cases hb : MAX_SESSIONS < (sweepExpiredEntries m now).length
  · have hperm : List.Perm ((sweepExpiredEntries m now).mergeSort createdAtLe)
        (sweepExpiredEntries m now) :=
      List.mergeSort_perm _ createdAtLe
    have hpairwise : List.Pairwise (fun a b => createdAtLe a b = true)
        ((sweepExpiredEntries m now).mergeSort createdAtLe) :=
      List.sorted_mergeSort createdAtLe_trans createdAtLe_total _
    have hsplit : capRemove (sweepExpiredEntries m now) ++
        ((sweepExpiredEntries m now).mergeSort createdAtLe).drop
          ((sweepExpiredEntries m now).length - MAX_SESSIONS) =
        (sweepExpiredEntries m now).mergeSort createdAtLe :=
      List.take_append_drop _ _
    have hpw2 : ∀ a ∈ capRemove (sweepExpiredEntries m now),
        ∀ b ∈ ((sweepExpiredEntries m now).mergeSort createdAtLe).drop
          ((sweepExpiredEntries m now).length - MAX_SESSIONS),
        createdAtLe a b = true := by
      have hp : List.Pairwise (fun a b => createdAtLe a b = true)
          (capRemove (sweepExpiredEntries m now) ++
           ((sweepExpiredEntries m now).mergeSort createdAtLe).drop
             ((sweepExpiredEntries m now).length - MAX_SESSIONS)) := by
        rwa [hsplit]
      exact fun a ha b hb1 => (List.pairwise_append.mp hp).2.2 a ha b hb1
    have hclean := cleanup_eq_of_branch hb
    have hgetA : mapGet (sweepExpiredEntries m now) k = some d := mem_mapGet hinvA hmemA
    have hkmem : k ∈ (capRemove (sweepExpiredEntries m now)).map Prod.fst := by
      by_contra hknot
      rw [hclean, mapGet_deleteAll, if_neg hknot, hgetA] at hnone
      exact Option.noConfusion hnone
    obtain ⟨er, her, hkey⟩ := List.mem_map.mp hkmem
    have her_sorted : er ∈ (sweepExpiredEntries m now).mergeSort createdAtLe :=
      List.mem_of_mem_take her
    have her_A : er ∈ sweepExpiredEntries m now := hperm.mem_iff.mp her_sorted
    have her_get : mapGet (sweepExpiredEntries m now) er.1 = some er.2 :=
      mem_mapGet hinvA her_A
    have her_eq : er = (k, d) := by
      have h1 : mapGet (sweepExpiredEntries m now) k = some er.2 := by
        rw [← hkey]
        exact her_get
      rw [hgetA] at h1
      have h2 : er.2 = d := (Option.some.injEq _ _).mp h1.symm
      calc er = (er.1, er.2) := rfl
        _ = (k, d) := by rw [hkey, h2]
    rw [hclean, mapGet_deleteAll] at hget'
    by_cases hk'mem : k' ∈ (capRemove (sweepExpiredEntries m now)).map Prod.fst
    · rw [if_pos hk'mem] at hget'
      exact Option.noConfusion hget'
    · rw [if_neg hk'mem] at hget'
      have hmem' : (k', d') ∈ sweepExpiredEntries m now := mapGet_some_mem hget'
      have hmem'_sorted : (k', d') ∈ (sweepExpiredEntries m now).mergeSort createdAtLe :=
        hperm.mem_iff.mpr hmem'
      have hmem'_split : (k', d') ∈ capRemove (sweepExpiredEntries m now) ++
          ((sweepExpiredEntries m now).mergeSort createdAtLe).drop
            ((sweepExpiredEntries m now).length - MAX_SESSIONS) := by
        rwa [hsplit]
      rcases List.mem_append.mp hmem'_split with hin | hin
      · exact absurd (List.mem_map.mpr ⟨(k', d'), hin, rfl⟩) hk'mem
      · have := hpw2 (k, d) (her_eq ▸ her) (k', d') hin
        simpa [createdAtLe] using this
  · rw [cleanup_eq_of_not_branch hb] at hnone
    rw [mem_mapGet hinvA hmemA] at hnone
    exact Option.noConfusion hnone

/-! ## Claim C4: the cleanup sweep -/

/-- C4: for every registry and timestamp, cleanupExpiredCodes removes
every entry that is pending with expiresAt in the past, removes nothing
else except under the capacity rule (in which case everything else it
removes is no newer, by createdAt, than every survivor), leaves at most
MAX_SESSIONS entries, and deleting a key already removed (for instance
by a per-record expiry timer) is a no-op, not a fault. -/
theorem C4_cleanup_spec (m : Registry) (now : Nat) (hinv : MapInv m) :
    (∀ k d, mapGet (cleanupExpiredCodes m now) k = some d →
      ¬(d.expiresAt < now ∧ d.status = "pending")) ∧
    (∀ k d, mapGet m k = some d → mapGet (cleanupExpiredCodes m now) k = none →
      (d.expiresAt < now ∧ d.status = "pending") ∨
      (MAX_SESSIONS < (sweepExpiredEntries m now).length ∧
       ∀ k' d', mapGet (cleanupExpiredCodes m now) k' = some d' →
         d.createdAt ≤ d'.createdAt)) ∧
    (cleanupExpiredCodes m now).length ≤ MAX_SESSIONS ∧
    (∀ k, mapGet m k = none → mapDelete m k = m) := by
  have hinvA : MapInv (sweepExpiredEntries m now) := mapInv_sweep now hinv
  refine ⟨?_, ?_, cleanup_length_le m now hinv, fun k h => mapDelete_noop h⟩
  · intro k d hget
    exact (mem_sweep_iff.mp (mem_cleanup_subset (mapGet_some_mem hget))).2
  · intro k d hget hnone
    by_cases hex : d.expiresAt < now ∧ d.status = "pending"
    · exact Or.inl hex
    · have hmemA : (k, d) ∈ sweepExpiredEntries m now :=
        mem_sweep_iff.mpr ⟨mapGet_some_mem hget, hex⟩
      by_cases hb : MAX_SESSIONS < (sweepExpiredEntries m now).length
      · exact Or.inr ⟨hb, cleanup_fifo m now hinv k d hmemA hnone⟩
      · rw [cleanup_eq_of_not_branch hb, mem_mapGet hinvA hmemA] at hnone
        exact Option.noConfusion hnone

/-- A two-record concrete registry used by sweep witnesses: one pending
record expired long before time 700000, one pending record still live. -/
def exSweepState : ServerState :=
  (generateNewPairingCode
    (generateNewPairingCode initialState 0 "AB23CD45" none none "S").1
    650000 "EF67GH89" none none "S2").1

/-- The still-live record of exSweepState. -/
def exLiveRecord : CodeData :=
  { code := "EF67GH89"
    displayCode := "EF67-GH89"
    phoneNumber := none
    country := none
    sessionId := "S2"
    status := "pending"
    createdAt := 650000
    expiresAt := 1250000
    linkedAt := none
    qrData := none
    qrImage := none
    attempts := 0
    generatedBy := "IAN TECH"
    botStatus := "disconnected"
    isValid := true }

theorem C4_cleanup_spec_witness :
    MapInv exSweepState.pairingCodes ∧
    (mapGet (cleanupExpiredCodes exSweepState.pairingCodes 700000) "EF67GH89" =
      some exLiveRecord ∧
     ¬(exLiveRecord.expiresAt < 700000 ∧ exLiveRecord.status = "pending")) ∧
    (cleanupExpiredCodes exSweepState.pairingCodes 700000).length ≤ MAX_SESSIONS :=
  ⟨by decide,
   ⟨by decide,
    (C4_cleanup_spec exSweepState.pairingCodes 700000 (by decide)).1
      "EF67GH89" exLiveRecord (by decide)⟩,
   (C4_cleanup_spec exSweepState.pairingCodes 700000 (by decide)).2.2.1⟩

/-! ## Claim C5: the capacity cap -/

/-- C5 as stated is false: generateNewPairingCode never evicts, so an
issue against a registry already at the cap leaves more than
MAX_SESSIONS entries until the next periodic sweep. The counterexample
instantiates the claim at a registry holding exactly MAX_SESSIONS
entries produced by 50 issue calls. -/
def exLetters : List Char := ['C', 'D', 'E', 'F', 'G', 'H', 'J', 'K']

/-- The i-th distinct generator-shaped code of the C5 counterexample. -/
def exCode (i : Nat) : String :=
  String.mk ['A', 'B', '2', '3', exLetters.getD (i / 8) 'C', exLetters.getD (i % 8) 'C',
             'E', 'F']

/-- The state after n issue calls at time 0, one per exCode. -/
def exIssueFold (n : Nat) : ServerState :=
  (List.range n).foldl
    (fun s i => (generateNewPairingCode s 0 (exCode i) none none "S").1) initialState

theorem C5_counterexample :
    ¬ (∀ (st : ServerState) (now : Nat) (code : String)
        (phoneNumber country : Option String) (sessionId : String),
        (∃ draws, generateAlphanumericCode draws = some code) →
        st.pairingCodes.length ≤ MAX_SESSIONS →
        ((generateNewPairingCode st now code phoneNumber country sessionId).1).pairingCodes.length ≤
          MAX_SESSIONS) := by
  intro h
  have h50 : (exIssueFold 50).pairingCodes.length = 100 := by decide
  have h51 : ((generateNewPairingCode (exIssueFold 50) 0 "AB23CD45" none none
      "S").1).pairingCodes.length = 102 := by decide
  have hle := h (exIssueFold 50) 0 "AB23CD45" none none "S"
    ⟨[⟨0, 1, 24, 25, 2, 3, 26, 27⟩], by decide⟩ (by rw [h50]; decide)
  rw [h51] at hle
  exact absurd hle (by decide)

/-- C5 amended: an issue call enforces no cap; the cap is enforced by the
periodic cleanupExpiredCodes sweep, after which the registry holds at
most MAX_SESSIONS entries, and every entry the capacity rule evicted
(removed while surviving the expiry pass) has createdAt no newer than
any surviving entry — eviction is strictly oldest-first by createdAt,
never by expiry proximity. -/
theorem C5_cap_enforced_by_sweep (m : Registry) (now : Nat) (hinv : MapInv m) :
    (cleanupExpiredCodes m now).length ≤ MAX_SESSIONS ∧
    (∀ k d, (k, d) ∈ sweepExpiredEntries m now →
      mapGet (cleanupExpiredCodes m now) k = none →
      ∀ k' d', mapGet (cleanupExpiredCodes m now) k' = some d' →
        d.createdAt ≤ d'.createdAt) :=
  ⟨cleanup_length_le m now hinv, cleanup_fifo m now hinv⟩

theorem C5_cap_enforced_by_sweep_witness :
    MapInv exSweepState.pairingCodes ∧
    (cleanupExpiredCodes exSweepState.pairingCodes 700000).length ≤ MAX_SESSIONS :=
  ⟨by decide,
   (C5_cap_enforced_by_sweep exSweepState.pairingCodes 700000 (by decide)).1⟩

/-! ## Event-loop reachability lemmas -/

theorem startConnect_pairingCodes (st : ServerState) (now : Nat) :
    (startConnect st now).pairingCodes = st.pairingCodes := by
  unfold startConnect
  by_cases h : st.isConnecting <;> simp [h]

theorem mem_issue {st : ServerState} {now : Nat} {code : String}
    {phoneNumber country : Option String} {sessionId : String} {e : String × CodeData}
    (h : e ∈ (generateNewPairingCode st now code phoneNumber country sessionId).1.pairingCodes) :
    e.2.status = "pending" ∨ e ∈ st.pairingCodes := by
  rcases mem_mapSet h with h1 | h1
  · rw [h1]
    exact Or.inl rfl
  · rcases mem_mapSet h1 with h2 | h2
    · rw [h2]
      exact Or.inl rfl
    · exact Or.inr h2

theorem fire_subset {st : ServerState} {tm : ExpiryTimer} {e : String × CodeData}
    (h : e ∈ (fireExpiryTimer st tm).pairingCodes) : e ∈ st.pairingCodes := by
  rcases hg : mapGet st.pairingCodes tm.code with _ | d
  · simpa [fireExpiryTimer, hg] using h
  · by_cases hp : d.status = "pending"
    · have h2 : (fireExpiryTimer st tm).pairingCodes =
          mapDelete (mapDelete st.pairingCodes tm.code) tm.displayCode := by
        simp [fireExpiryTimer, hg, hp]
      rw [h2] at h
      exact mapDelete_subset (mapDelete_subset h)
    · have h2 : (fireExpiryTimer st tm).pairingCodes = st.pairingCodes := by
        simp [fireExpiryTimer, hg, hp]
      rwa [h2] at h

theorem reach_status_pending_or_linked {st : ServerState} {t : Nat} (h : Reach st t) :
    ∀ e ∈ st.pairingCodes, e.2.status = "pending" ∨ e.2.status = "linked" := by
  induction h with
  | init =>
    intro e he
    simp [initialState] at he
  | tick h hle ih => exact ih
  | issue code phoneNumber country sessionId h hgen ih =>
    intro e he
    rcases mem_issue he with h1 | h1
    · exact Or.inl h1
    · exact ih e h1
  | connect h ih =>
    intro e he
    rw [startConnect_pairingCodes] at he
    exact ih e he
  | connectFailed h ih =>
    intro e he
    exact ih e he
  | qrEvent qr renderedImage h ih =>
    intro e he
    exact ih e he
  | connOpen h ih =>
    intro e he
    obtain ⟨e0, he0, rfl⟩ := List.mem_map.mp he
    by_cases hp : e0.2.status = "pending"
    · right
      rw [if_pos hp]
    · rw [if_neg hp]
      exact ih e0 he0
  | connClose statusCode h ih =>
    intro e he
    rw [handleConnectionClose_fst] at he
    exact ih e he
  | sweep h ih =>
    intro e he
    exact ih e (mem_sweep_iff.mp (mem_cleanup_subset he)).1
  | fire tm h hmem hdue ih =>
    intro e he
    exact ih e (fire_subset he)

/-! ## Verify-code characterization lemmas -/

theorem verifyCode_none_found {m : Registry} {code : String} (hc : ¬ code = "")
    (horelse : (mapGet m (normalizeCode code)).orElse (fun _ => mapGet m code) = none) :
    verifyCode m (some code) = ⟨false, "Invalid pairing code", none, 200⟩ := by
  unfold verifyCode
  dsimp only
  rw [if_neg hc, horelse]

theorem verifyCode_some_found {m : Registry} {code : String} {d2 : CodeData}
    (hc : ¬ code = "")
    (horelse : (mapGet m (normalizeCode code)).orElse (fun _ => mapGet m code) = some d2) :
    verifyCode m (some code) =
      (if d2.status = "expired" then ⟨false, "This pairing code has expired", none, 200⟩
       else if d2.status = "linked" then ⟨true, "Pairing code already linked", some d2, 200⟩
       else ⟨true, "Valid pairing code", some d2, 200⟩ : VerifyResponse) := by
  unfold verifyCode
  dsimp only
  rw [if_neg hc, horelse]

theorem verifyCode_found_mem {m : Registry} {code : String} {d2 : CodeData}
    (horelse : (mapGet m (normalizeCode code)).orElse (fun _ => mapGet m code) = some d2) :
    ∃ k, mapGet m k = some d2 := by
  rcases h1 : mapGet m (normalizeCode code) with _ | d1
  · rw [h1] at horelse
    exact ⟨code, horelse⟩
  · rw [h1] at horelse
    have h2 : some d1 = some d2 := horelse
    exact ⟨normalizeCode code, h1.trans h2⟩

theorem verifyCode_message_ne_expired {m : Registry}
    (hm : ∀ k d, mapGet m k = some d → d.status ≠ "expired") (body : Option String) :
    (verifyCode m body).message ≠ "This pairing code has expired" := by
  cases body with
  | none => simp [verifyCode]
  | some code =>
    by_cases hc : code = ""
    · rw [hc]
      simp [verifyCode]
    · rcases horelse : (mapGet m (normalizeCode code)).orElse (fun _ => mapGet m code)
        with _ | d2
      · rw [verifyCode_none_found hc horelse]
        simp
      · obtain ⟨k, hk⟩ := verifyCode_found_mem horelse
        have hd2 : d2.status ≠ "expired" := hm k d2 hk
        rw [verifyCode_some_found hc horelse, if_neg hd2]
        by_cases hl : d2.status = "linked"
        · rw [if_pos hl]
          simp
        · rw [if_neg hl]
          simp

theorem verifyCode_data_mem {m : Registry} {body : Option String} {d : CodeData}
    (h : (verifyCode m body).data = some d) : ∃ k, mapGet m k = some d := by
  cases body with
  | none => simp [verifyCode] at h
  | some code =>
    by_cases hc : code = ""
    · rw [hc] at h
      simp [verifyCode] at h
    · rcases horelse : (mapGet m (normalizeCode code)).orElse (fun _ => mapGet m code)
        with _ | d2
      · rw [verifyCode_none_found hc horelse] at h
        simp at h
      · have hd2mem := verifyCode_found_mem horelse
        rw [verifyCode_some_found hc horelse] at h
        by_cases he : d2.status = "expired"
        · rw [if_pos he] at h
          simp at h
        · rw [if_neg he] at h
          by_cases hl : d2.status = "linked"
          · rw [if_pos hl] at h
            simp at h
            exact h ▸ hd2mem
          · rw [if_neg hl] at h
            simp at h
            exact h ▸ hd2mem

/-! ## Claim C10: the expired status is never stored -/

/-- C10: in every reachable server state, every stored record's status
is pending or linked — no operation ever writes the status expired
(expired records are deleted instead) — so the branch of /verify-code
answering that the pairing code has expired is unreachable. -/
theorem C10_expired_branch_unreachable (st : ServerState) (t : Nat) (h : Reach st t) :
    (∀ k d, mapGet st.pairingCodes k = some d → d.status ≠ "expired") ∧
    (∀ body, (verifyCode st.pairingCodes body).message ≠
      "This pairing code has expired") := by
  have hinv := reach_status_pending_or_linked h
  have hstat : ∀ k d, mapGet st.pairingCodes k = some d → d.status ≠ "expired" := by
    intro k d hget
    rcases hinv (k, d) (mapGet_some_mem hget) with h1 | h1 <;> rw [h1] <;> decide
  exact ⟨hstat, fun body => verifyCode_message_ne_expired hstat body⟩

theorem C10_expired_branch_unreachable_witness :
    Reach exC2state 600001 ∧
    (∀ k d, mapGet exC2state.pairingCodes k = some d → d.status ≠ "expired") ∧
    (∀ body, (verifyCode exC2state.pairingCodes body).message ≠
      "This pairing code has expired") :=
  have hreach : Reach exC2state 600001 :=
    Reach.tick (Reach.issue "AB23CD45" none none "S" Reach.init
      ⟨[⟨0, 1, 24, 25, 2, 3, 26, 27⟩], by decide⟩) (by omega)
  ⟨hreach, C10_expired_branch_unreachable exC2state 600001 hreach⟩

/-! ## Claim C3: expiry under lookup -/

/-- C3 counterexample: /verify-code has no lazy expiry check, so before
the per-record timeout callback or the periodic sweep has run, a pending
record whose expiresAt has passed is still returned as valid. The state
reached by issuing at time 0 and letting the clock pass 600001 (with
neither the due timer nor a sweep having fired yet, which the event loop
permits) still answers the lookup with the pending record. -/
theorem C3_counterexample :
    ¬ (∀ (st : ServerState) (t : Nat) (body : Option String) (d : CodeData),
        Reach st t → (verifyCode st.pairingCodes body).data = some d →
        d.status = "pending" → t ≤ d.expiresAt) := by
  intro h
  have hreach : Reach exC2state 600001 :=
    Reach.tick (Reach.issue "AB23CD45" none none "S" Reach.init
      ⟨[⟨0, 1, 24, 25, 2, 3, 26, 27⟩], by decide⟩) (by omega)
  have hv : (verifyCode exC2state.pairingCodes (some "AB23CD45")).data = some exC2record := by
    decide
  have hle := h exC2state 600001 (some "AB23CD45") exC2record hreach hv rfl
  exact absurd hle (by decide)

/-- C3 amended: a pending record past its expiresAt can still be
returned as valid by /verify-code until its expiry timeout or the
periodic sweep runs; once cleanupExpiredCodes runs at time t, no pending
record with expiresAt earlier than t remains in the registry or is
observable through the /verify-code lookup. -/
theorem C3_lazy_expiry_amended (m : Registry) (now : Nat) :
    (∀ k d, mapGet (cleanupExpiredCodes m now) k = some d →
      d.status = "pending" → ¬ d.expiresAt < now) ∧
    (∀ body d, (verifyCode (cleanupExpiredCodes m now) body).data = some d →
      d.status = "pending" → ¬ d.expiresAt < now) := by
  have h1 : ∀ k d, mapGet (cleanupExpiredCodes m now) k = some d →
      d.status = "pending" → ¬ d.expiresAt < now := by
    intro k d hget hp hex
    exact (mem_sweep_iff.mp (mem_cleanup_subset (mapGet_some_mem hget))).2 ⟨hex, hp⟩
  refine ⟨h1, ?_⟩
  intro body d hdata hp
  obtain ⟨k, hk⟩ := verifyCode_data_mem hdata
  exact h1 k d hk hp

theorem C3_lazy_expiry_amended_witness :
    mapGet (cleanupExpiredCodes exSweepState.pairingCodes 700000) "EF67GH89" =
      some exLiveRecord ∧
    exLiveRecord.status = "pending" ∧
    ¬ exLiveRecord.expiresAt < 700000 :=
  ⟨by decide, rfl,
   (C3_lazy_expiry_amended exSweepState.pairingCodes 700000).1 "EF67GH89" exLiveRecord
     (by decide) rfl⟩

/-! ## Claim C9: double-keyed registry entries -/

/-- The registry update performed by one generateNewPairingCode call:
the same record object stored under its raw code key and its display
code key. -/
def issueRegistry (m : Registry) (d : CodeData) : Registry :=
  mapSet (mapSet m d.code d) d.displayCode d

/-- The entries keyed by a raw 8-character code: one per logical record
of a well-paired registry. -/
def logicalRecordCount (m : Registry) : Nat :=
  (m.filter (fun e => decide (e.1.length = 8))).length

/-- A registry in which every record is stored under exactly its raw
code key and its display code key. -/
def WellPaired (m : Registry) : Prop :=
  MapInv m ∧ ∀ k d, mapGet m k = some d →
    d.code.length = 8 ∧
    d.displayCode = formatDisplayCode d.code ∧
    (k = d.code ∨ k = d.displayCode) ∧
    mapGet m d.code = some d ∧
    mapGet m d.displayCode = some d

/-- Registries reachable from empty through issue calls (codes drawn
from the generator) and whole-record deletions (the shape of the
per-record expiry timeout and of paired sweep deletions). -/
inductive PairedReach : Registry → Prop where
  | nil : PairedReach []
  | issue {m : Registry} (d : CodeData)
      (hgen : ∃ draws, generateAlphanumericCode draws = some d.code)
      (hdisp : d.displayCode = formatDisplayCode d.code)
      (h : PairedReach m) : PairedReach (issueRegistry m d)
  | fullDelete {m : Registry} (c : String) (hc : c.length = 8)
      (h : PairedReach m) :
      PairedReach (mapDelete (mapDelete m c) (formatDisplayCode c))

theorem wellPaired_nil : WellPaired [] :=
  ⟨List.nodup_nil, fun k d h => by simp [mapGet] at h⟩

theorem wellPaired_issue {m : Registry} {d : CodeData} (h : WellPaired m)
    (hlen : d.code.length = 8) (hdisp : d.displayCode = formatDisplayCode d.code) :
    WellPaired (issueRegistry m d) := by
  obtain ⟨hinv, hrec⟩ := h
  have hdlen9 : d.displayCode.length = 9 := by
    rw [hdisp]
    exact formatDisplayCode_length hlen
  have hne : d.displayCode ≠ d.code := by
    intro he
    rw [he, hlen] at hdlen9
    exact absurd hdlen9 (by decide)
  have hgetc : mapGet (issueRegistry m d) d.code = some d := by
    unfold issueRegistry
    rw [mapGet_mapSet, if_neg hne, mapGet_mapSet, if_pos rfl]
  have hgetd : mapGet (issueRegistry m d) d.displayCode = some d := by
    unfold issueRegistry
    rw [mapGet_mapSet, if_pos rfl]
  refine ⟨mapInv_mapSet _ _ (mapInv_mapSet _ _ hinv), ?_⟩
  intro k x hget
  unfold issueRegistry at hget
  rw [mapGet_mapSet] at hget
  by_cases hk2 : d.displayCode = k
  · rw [if_pos hk2] at hget
    obtain rfl : d = x := Option.some.inj hget
    exact ⟨hlen, hdisp, Or.inr hk2.symm, hgetc, hgetd⟩
  · rw [if_neg hk2, mapGet_mapSet] at hget
    by_cases hk1 : d.code = k
    · rw [if_pos hk1] at hget
      obtain rfl : d = x := Option.some.inj hget
      exact ⟨hlen, hdisp, Or.inl hk1.symm, hgetc, hgetd⟩
    · rw [if_neg hk1] at hget
      obtain ⟨hxlen, hxdisp, hxkey, hxget1, hxget2⟩ := hrec k x hget
      have hx9 : x.displayCode.length = 9 := by
        rw [hxdisp]
        exact formatDisplayCode_length hxlen
      have hcode_ne : d.code ≠ x.code := by
        intro he
        have h1 : x.displayCode = d.displayCode := by rw [hxdisp, ← he, ← hdisp]
        rcases hxkey with hk | hk
        · exact hk1 (he.trans hk.symm)
        · exact hk2 (by rw [← h1, ← hk])
      have hxne1 : d.displayCode ≠ x.code := by
        intro he
        rw [he, hxlen] at hdlen9
        exact absurd hdlen9 (by decide)
      have hdisp_ne1 : d.displayCode ≠ x.displayCode := by
        intro he
        refine hcode_ne (formatDisplayCode_inj hlen hxlen ?_)
        rw [← hdisp, ← hxdisp]
        exact he
      have hdisp_ne2 : d.code ≠ x.displayCode := by
        intro he
        rw [← he, hlen] at hx9
        exact absurd hx9 (by decide)
      refine ⟨hxlen, hxdisp, hxkey, ?_, ?_⟩
      · unfold issueRegistry
        rw [mapGet_mapSet, if_neg hxne1, mapGet_mapSet, if_neg hcode_ne]
        exact hxget1
      · unfold issueRegistry
        rw [mapGet_mapSet, if_neg hdisp_ne1, mapGet_mapSet, if_neg hdisp_ne2]
        exact hxget2

theorem wellPaired_fullDelete {m : Registry} {c : String} (h : WellPaired m)
    (hc : c.length = 8) :
    WellPaired (mapDelete (mapDelete m c) (formatDisplayCode c)) := by
  obtain ⟨hinv, hrec⟩ := h
  have hfd9 : (formatDisplayCode c).length = 9 := formatDisplayCode_length hc
  refine ⟨mapInv_mapDelete _ (mapInv_mapDelete _ hinv), ?_⟩
  intro k x hget
  rw [mapGet_mapDelete] at hget
  by_cases h2 : formatDisplayCode c = k
  · rw [if_pos h2] at hget
    exact Option.noConfusion hget
  · rw [if_neg h2, mapGet_mapDelete] at hget
    by_cases h1 : c = k
    · rw [if_pos h1] at hget
      exact Option.noConfusion hget
    · rw [if_neg h1] at hget
      obtain ⟨hxlen, hxdisp, hxkey, hxget1, hxget2⟩ := hrec k x hget
      have hx9 : x.displayCode.length = 9 := by
        rw [hxdisp]
        exact formatDisplayCode_length hxlen
      have hcode_ne : c ≠ x.code := by
        intro he
        have h3 : x.displayCode = formatDisplayCode c := by rw [hxdisp, ← he]
        rcases hxkey with hk | hk
        · exact h1 (he.trans hk.symm)
        · exact h2 (by rw [← h3, ← hk])
      have hfd_ne1 : formatDisplayCode c ≠ x.code := by
        intro he
        rw [he, hxlen] at hfd9
        exact absurd hfd9 (by decide)
      have hfd_ne2 : formatDisplayCode c ≠ x.displayCode := by
        intro he
        refine hcode_ne (formatDisplayCode_inj hc hxlen ?_)
        rw [← hxdisp]
        exact he
      have hc_ne2 : c ≠ x.displayCode := by
        intro he
        rw [← he, hc] at hx9
        exact absurd hx9 (by decide)
      refine ⟨hxlen, hxdisp, hxkey, ?_, ?_⟩
      · rw [mapGet_mapDelete, if_neg hfd_ne1, mapGet_mapDelete, if_neg hcode_ne]
        exact hxget1
      · rw [mapGet_mapDelete, if_neg hfd_ne2, mapGet_mapDelete, if_neg hc_ne2]
        exact hxget2

theorem pairedReach_wellPaired {m : Registry} (h : PairedReach m) : WellPaired m := by
  induction h with
  | nil => exact wellPaired_nil
  | issue d hgen hdisp h ih =>
    obtain ⟨draws, hdraws⟩ := hgen
    exact wellPaired_issue ih (generateAlphanumericCode_spec hdraws).1 hdisp
  | fullDelete c hc h ih => exact wellPaired_fullDelete ih hc

theorem filter_split_length (p : String × CodeData → Bool) (l : Registry) :
    (l.filter p).length + (l.filter (fun e => !(p e))).length = l.length := by
  induction l with
  | nil => rfl
  | cons e rest ih =>
    by_cases hp : p e <;> simp [List.filter_cons, hp] <;> omega

theorem wellPaired_length (m : Registry) (h : WellPaired m) :
    m.length = 2 * logicalRecordCount m := by
  obtain ⟨hinv, hrec⟩ := h
  have hmnodup : m.Nodup := List.Nodup.of_map Prod.fst hinv
  have hraw_key : ∀ e ∈ m.filter (fun e => decide (e.1.length = 8)),
      e.1 = e.2.code ∧ e.2.code.length = 8 ∧
      e.2.displayCode = formatDisplayCode e.2.code := by
    intro e he
    obtain ⟨hem, hp⟩ := List.mem_filter.mp he
    have hp8 : e.1.length = 8 := of_decide_eq_true hp
    obtain ⟨hclen, hcdisp, hkey, hget1, hget2⟩ := hrec e.1 e.2 (mem_mapGet hinv hem)
    rcases hkey with hk | hk
    · exact ⟨hk, hclen, hcdisp⟩
    · exfalso
      have h9 : e.2.displayCode.length = 9 := by
        rw [hcdisp]
        exact formatDisplayCode_length hclen
      rw [← hk, hp8] at h9
      exact absurd h9 (by decide)
  have hdisp_key : ∀ e ∈ m.filter (fun e => !(decide (e.1.length = 8))),
      e.1 = e.2.displayCode ∧ e.2.code.length = 8 ∧
      e.2.displayCode = formatDisplayCode e.2.code := by
    intro e he
    obtain ⟨hem, hp⟩ := List.mem_filter.mp he
    have hp8 : ¬ e.1.length = 8 := by simpa using hp
    obtain ⟨hclen, hcdisp, hkey, hget1, hget2⟩ := hrec e.1 e.2 (mem_mapGet hinv hem)
    rcases hkey with hk | hk
    · exfalso
      rw [hk] at hp8
      exact hp8 hclen
    · exact ⟨hk, hclen, hcdisp⟩
  have hperm : List.Perm
      ((m.filter (fun e => decide (e.1.length = 8))).map (fun e => (e.2.displayCode, e.2)))
      (m.filter (fun e => !(decide (e.1.length = 8)))) := by
    apply (List.perm_ext_iff_of_nodup ?_ ?_).mpr
    · intro a
      constructor
      · intro ha
        obtain ⟨e0, he0, heq⟩ := List.mem_map.mp ha
        obtain ⟨hkey0, hlen0, hdisp0⟩ := hraw_key e0 he0
        have hem0 : e0 ∈ m := (List.mem_filter.mp he0).1
        obtain ⟨_, _, _, hget1, hget2⟩ := hrec e0.1 e0.2 (mem_mapGet hinv hem0)
        have hmem2 : (e0.2.displayCode, e0.2) ∈ m := mapGet_some_mem hget2
        rw [← heq]
        apply List.mem_filter.mpr
        refine ⟨hmem2, ?_⟩
        have h9 : e0.2.displayCode.length = 9 := by
          rw [hdisp0]
          exact formatDisplayCode_length hlen0
        simp [h9]
      · intro ha
        obtain ⟨hkeya, hlena, hdispa⟩ := hdisp_key a ha
        have hema : a ∈ m := (List.mem_filter.mp ha).1
        obtain ⟨_, _, _, hget1, hget2⟩ := hrec a.1 a.2 (mem_mapGet hinv hema)
        have hmem1 : (a.2.code, a.2) ∈ m := mapGet_some_mem hget1
        apply List.mem_map.mpr
        refine ⟨(a.2.code, a.2), ?_, ?_⟩
        · exact List.mem_filter.mpr ⟨hmem1, by simp [hlena]⟩
        · exact Prod.ext hkeya.symm rfl
    · apply List.Nodup.map_on
      · intro x hx y hy hxy
        obtain ⟨hkx, hlx, _⟩ := hraw_key x hx
        obtain ⟨hky, hly, _⟩ := hraw_key y hy
        have h2 : x.2 = y.2 := ((Prod.mk.injEq _ _ _ _).mp hxy).2
        have h1 : x.1 = y.1 := by rw [hkx, hky, h2]
        exact Prod.ext h1 h2
      · exact List.Nodup.filter _ hmnodup
    · exact List.Nodup.filter _ hmnodup
  have hlen_eq : (m.filter (fun e => decide (e.1.length = 8))).length =
      (m.filter (fun e => !(decide (e.1.length = 8)))).length := by
    have hx := hperm.length_eq
    rwa [List.length_map] at hx
  have hsplit := filter_split_length (fun e => decide (e.1.length = 8)) m
  unfold logicalRecordCount
  omega

/-- C9: each issue stores one record under exactly two distinct map
keys — the raw 8-character code and the 9-character display code, which
always differ — so in every registry reachable through issues and
whole-record deletions the Map entry count (the pairingCodes figure
served by GET /status and the GET / page, and the very quantity
cleanupExpiredCodes compares with MAX_SESSIONS) equals twice the number
of logical records. -/
theorem C9_registry_double_counts :
    (∀ m, PairedReach m → m.length = 2 * logicalRecordCount m) ∧
    (∀ (st : ServerState) (now : Nat) (code : String)
       (phoneNumber country : Option String) (sessionId : String),
      (∃ draws, generateAlphanumericCode draws = some code) →
      code.length = 8 ∧ (formatDisplayCode code).length = 9 ∧
      formatDisplayCode code ≠ code ∧
      ∃ d : CodeData,
        (generateNewPairingCode st now code phoneNumber country sessionId).1.pairingCodes =
          issueRegistry st.pairingCodes d ∧
        d.code = code ∧ d.displayCode = formatDisplayCode code ∧
        mapGet (issueRegistry st.pairingCodes d) code = some d ∧
        mapGet (issueRegistry st.pairingCodes d) (formatDisplayCode code) = some d) ∧
    (∀ st : ServerState, (statusEndpoint st).pairingCodes = st.pairingCodes.length ∧
      rootActiveCodesCount st = st.pairingCodes.length) ∧
    (∀ (m : Registry) (now : Nat),
      ¬ MAX_SESSIONS < (sweepExpiredEntries m now).length →
      cleanupExpiredCodes m now = sweepExpiredEntries m now) := by
  refine ⟨?_, ?_, fun st => ⟨rfl, rfl⟩, fun m now hb => cleanup_eq_of_not_branch hb⟩
  · intro m h
    exact wellPaired_length m (pairedReach_wellPaired h)
  · intro st now code phoneNumber country sessionId hgen
    obtain ⟨draws, hdraws⟩ := hgen
    obtain ⟨hlen, halpha, _, _⟩ := generateAlphanumericCode_spec hdraws
    have h9 := formatDisplayCode_length hlen
    have hne := formatDisplayCode_ne hlen
    refine ⟨hlen, h9, hne, ?_⟩
    refine ⟨{ code := code
              displayCode := formatDisplayCode code
              phoneNumber := phoneNumber
              country := country
              sessionId := sessionId
              status := "pending"
              createdAt := now
              expiresAt := now + CODE_EXPIRY_MINUTES * 60 * 1000
              linkedAt := none
              qrData := st.currentQR
              qrImage := st.qrImageDataUrl
              attempts := 0
              generatedBy := COMPANY_NAME
              botStatus := st.botStatus
              isValid := true }, rfl, rfl, rfl, ?_, ?_⟩
    · unfold issueRegistry
      rw [mapGet_mapSet]
      rw [if_neg (show formatDisplayCode code ≠ code from hne)]
      rw [mapGet_mapSet, if_pos rfl]
    · unfold issueRegistry
      rw [mapGet_mapSet, if_pos rfl]

theorem C9_registry_double_counts_witness :
    PairedReach (issueRegistry [] exC2record) ∧
    (issueRegistry [] exC2record).length = 2 * logicalRecordCount (issueRegistry [] exC2record) :=
  have hpr : PairedReach (issueRegistry [] exC2record) :=
    PairedReach.issue exC2record ⟨[⟨0, 1, 24, 25, 2, 3, 26, 27⟩], by decide⟩
      (by decide) PairedReach.nil
  ⟨hpr, C9_registry_double_counts.1 _ hpr⟩

end IanTech
